import Mathlib

/-!
# SFVTool: a shallow embedding of `include/sfv.hpp` and `src/sfvtool.cpp`

Conventions of the embedding.

* A byte of a file, of a C++ `std::string` or of an output stream is a `Char`
  with the same code (`'\r'` is 13, `'\xff'` is the byte 0xFF); a string is a
  `List Char`.  `char` is the signed 8-bit type of the platforms the tool is
  written for.
* `std::uint32_t` values are `Nat`s kept below `2^32` by an explicit `% 2^32`
  (`u32`) wherever the code increments, adds or casts.
* The file system is a function from paths to what the tool can observe of a
  path; C++ exceptions are the error side of `Except`.
* `std::cout` and `std::cerr` are the texts written so far.
-/

namespace sfv

/-! ## Constants (`sfv.hpp` 28-34) -/

def COMMENT : Char := ';'

def SEPARATOR : Char := ' '

def LINE_SEPARATOR : List Char := ['\r', '\n']

def HEADER : List Char := "Generated by SFVTool v1.0 (github.com/slek-z/sfvtool)".toList

def BUFFER_SIZE : Nat := 4096

/-- Reduction of a natural number to the range of `std::uint32_t`. -/
def u32 (n : Nat) : Nat := n % 4294967296

/-! ## Exceptions (`sfv.hpp` 36-70 and the standard ones the code throws) -/

/-- The exceptions that travel through the program, each with its `what()`
text where the code reads it. -/
inductive Exception where
  | not_found (what : List Char)
  | io_error (what : List Char)
  | runtime_error (what : List Char)
  /-- The `boost::filesystem::filesystem_error`, a `std::runtime_error`. -/
  | filesystem_error (what : List Char)
  | out_of_range
  deriving DecidableEq, Repr

deriving instance DecidableEq for Except

/-! ## Summaries (`sfv.hpp` 72-84) -/

structure summary where
  duplicated_files : Nat := 0
  deriving DecidableEq, Repr

structure check_summary where
  format_errors : Nat := 0
  read_errors : Nat := 0
  check_errors : Nat := 0
  deriving DecidableEq, Repr

/-! ## The file system and `std::ifstream` -/

/-- What the tool can observe of an existing path. -/
structure FileNode where
  /-- Whether `boost::filesystem::is_regular_file` returns true for the path. -/
  regular : Bool
  /-- Whether opening the path for reading succeeds. -/
  readable : Bool
  /-- The bytes that reads deliver, in order. -/
  content : List Char
  /-- Whether the read that follows the last byte of `content` is a device
  error (true) or the end of the file (false). -/
  device_error : Bool
  /-- Result of `boost::filesystem::file_size`. -/
  size : Nat
  /-- Result of `boost::filesystem::last_write_time`. -/
  last_write : Int
  /-- For a path with `regular` false: the `what()` text of the
  `filesystem_error` that `boost::filesystem::is_regular_file` throws when the
  status of the path cannot be read (search permission denied, name too
  long), and `none` when the call returns false. -/
  status_error : Option (List Char) := none
  deriving DecidableEq, Repr

/-- The file system: `none` for a path that does not exist.  A path whose
status cannot be read is a node with `status_error`. -/
abbrev FileSystem := List Char → Option FileNode

/-- The value that `boost::filesystem::is_regular_file(file)` returns, when it
returns; whether it returns is `is_regular_file_error`. -/
def is_regular_file (fs : FileSystem) (file : List Char) : Bool :=
  match fs file with
  | some node => node.regular
  | none => false

/-- Whether `boost::filesystem::is_regular_file(file)` throws instead of
returning: the `what()` text of its `filesystem_error`, and `none` when the
call returns. -/
def is_regular_file_error (fs : FileSystem) (file : List Char) : Option (List Char) :=
  match fs file with
  | some node => if node.regular then none else node.status_error
  | none => none

/-- State of a `std::ifstream`: the bytes not yet consumed and the state bits. -/
structure ifstream where
  is_open : Bool
  rest : List Char
  device_error : Bool
  eofbit : Bool
  failbit : Bool
  badbit : Bool
  deriving DecidableEq, Repr

namespace ifstream

def good (s : ifstream) : Bool := !s.eofbit && !s.failbit && !s.badbit

def eof (s : ifstream) : Bool := s.eofbit

def fail (s : ifstream) : Bool := s.failbit || s.badbit

/-- Constructor `std::ifstream(file, mode)`: a path that cannot be opened
leaves the stream closed with `failbit` set. -/
def openFile (fs : FileSystem) (file : List Char) : ifstream :=
  match fs file with
  | some node =>
    if node.readable then
      { is_open := true, rest := node.content, device_error := node.device_error,
        eofbit := false, failbit := false, badbit := false }
    else
      { is_open := false, rest := [], device_error := false,
        eofbit := false, failbit := true, badbit := false }
  | none =>
    { is_open := false, rest := [], device_error := false,
      eofbit := false, failbit := true, badbit := false }

/-- State of a good stream after an input function found no further byte:
end of file sets `eofbit` and `failbit`, a device error `badbit` and
`failbit`. -/
def exhausted (s : ifstream) : ifstream :=
  if s.device_error then { s with rest := [], failbit := true, badbit := true }
  else { s with rest := [], eofbit := true, failbit := true }

/-- Member `read(buffer, n)`: the bytes stored in the buffer (`gcount()` is
their number) and the stream afterwards. -/
def read (s : ifstream) (n : Nat) : List Char × ifstream :=
  if !s.good then ([], { s with failbit := true })
  else if n ≤ s.rest.length then (s.rest.take n, { s with rest := s.rest.drop n })
  else (s.rest, s.exhausted)

end ifstream

/-! ## `sfv::getline` (`sfv.hpp` 86-115) -/

/-- The test `(ch = input.get()) == traits_type::eof()` for a byte that
`get()` delivered: `ch` is a `char`, so the byte 0xFF, stored as -1, compares
equal to `eof()`. -/
def isEofChar (ch : Char) : Bool := ch.toNat == 255

/-- The loop `while (idx < delim.size())` of `getline`, run on the bytes the
good stream still holds.  The result is `output` and what is left of the
stream: `some rest` when the loop ended with the stream still good, `none`
when `get()` ran off the end of the bytes (the stream is then no longer
good). -/
def getlineLoop (delim : List Char) :
    List Char → Nat → List Char → List Char → List Char × Option (List Char)
  | [], idx, buffer, output =>
    if idx < delim.length then (output ++ buffer, none) else (output, some [])
  | ch :: rest, idx, buffer, output =>
    if idx < delim.length then
      if isEofChar ch then (output ++ buffer, some rest)
      else if delim.get? idx = some ch then
        getlineLoop delim rest (idx + 1) (buffer ++ [ch]) output
      else
        getlineLoop delim rest idx [] (output ++ buffer ++ [ch])
    else (output, some (ch :: rest))

/-- Function `sfv::getline(input, output, delim)`: the returned flag, the line
stored in `output`, and the stream afterwards. -/
def getline (input : ifstream) (delim : List Char) : Bool × List Char × ifstream :=
  if !input.good then (false, [], input)
  else if delim.isEmpty then (false, [], input)
  else
    match getlineLoop delim input.rest 0 [] [] with
    | (output, some rest) => (true, output, { input with rest := rest })
    | (output, none) => (true, output, input.exhausted)

/-! ## The manifest line pattern and `std::stoul` -/

/-- The bracket expression `[0-9a-fA-F]`: the codes 48 to 57, 97 to 102 and
65 to 70. -/
def isHexDigit (c : Char) : Bool :=
  (48 ≤ c.toNat && c.toNat ≤ 57) || (97 ≤ c.toNat && c.toNat ≤ 102) ||
    (65 ≤ c.toNat && c.toNat ≤ 70)

/-- The period of a POSIX extended regular expression (the grammar selected
by `std::regex::extended`): any character except NUL. -/
def matchesAny (c : Char) : Bool := c != '\x00'

/-- Call `std::regex_match(line, matches, rev_sfv_regex_)` for the pattern
`^([0-9a-fA-F]{8}) (.+$)` built at `sfv.hpp` 195-199: the whole of `line` must
be eight characters of `[0-9a-fA-F]`, one `SEPARATOR`, and one or more
characters matched by the period.  On success `matches` holds the whole match
and the two groups. -/
def regex_match (line : List Char) : Option (List (List Char)) :=
  let group1 := line.take 8
  match line.drop 8 with
  | [] => none
  | sep :: group2 =>
    if group1.length = 8 ∧ group1.all isHexDigit = true ∧ sep = SEPARATOR ∧
        group2 ≠ [] ∧ group2.all matchesAny = true then
      some [line, group1, group2]
    else none

/-- Value of a hexadecimal digit (0 for any other character). -/
def hexDigitValue (c : Char) : Nat :=
  if 48 ≤ c.toNat ∧ c.toNat ≤ 57 then c.toNat - 48
  else if 97 ≤ c.toNat ∧ c.toNat ≤ 102 then c.toNat - 87
  else if 65 ≤ c.toNat ∧ c.toNat ≤ 70 then c.toNat - 55
  else 0

/-- Base-16 value of a string of hexadecimal digits, most significant first. -/
def hexValue (digits : List Char) : Nat :=
  digits.foldl (fun acc c => 16 * acc + hexDigitValue c) 0

/-- The C function `isspace` in the "C" locale. -/
def isspace (c : Char) : Bool :=
  c == ' ' || c == '\t' || c == '\n' || c == '\x0b' || c == '\x0c' || c == '\r'

/-- The two ways `std::stoul` fails. -/
inductive StoulError where
  | invalid_argument
  | out_of_range
  deriving DecidableEq, Repr

/-- The optional sign in front of the number: whether it is a minus sign,
and the text after it. -/
def stoulSign (s : List Char) : Bool × List Char :=
  match s with
  | [] => (false, [])
  | c :: t => if c = '-' then (true, t) else if c = '+' then (false, t) else (false, c :: t)

/-- The optional `0x` or `0X`, skipped when a hexadecimal digit follows it. -/
def stoulPrefix (s : List Char) : List Char :=
  match s with
  | z :: x :: d :: t =>
    if z = '0' ∧ (x = 'x' ∨ x = 'X') ∧ isHexDigit d = true then d :: t else z :: x :: d :: t
  | _ => s

/-- Call `std::stoul(str, nullptr, 16)` (that is `strtoul` with a 64-bit
`unsigned long`): leading white space, an optional sign, an optional `0x` or
`0X` in front of a digit, then the longest run of hexadecimal digits.  No
digit at all is `invalid_argument`, a value above `ULONG_MAX` is
`out_of_range`, and a minus sign negates modulo `2^64`. -/
def stoul (str : List Char) : Except StoulError Nat :=
  let signed := stoulSign (str.dropWhile isspace)
  let digits := (stoulPrefix signed.2).takeWhile isHexDigit
  if digits.isEmpty then .error .invalid_argument
  else if 18446744073709551615 < hexValue digits then .error .out_of_range
  else if signed.1 then .ok ((18446744073709551616 - hexValue digits) % 18446744073709551616)
  else .ok (hexValue digits)

/-! ## `sfv::SFVFile` (`sfv.hpp` 191-252) -/

/-- The two vectors an `SFVFile` holds. -/
structure SFVFile where
  ignored_lines_ : List Nat
  data_ : List (List Char × Nat)
  deriving DecidableEq, Repr

namespace SFVFile

/-- Body of the `while` loop of the constructor (`sfv.hpp` 211-233) for one
line, `ctr` being the line counter after `ctr++`.  A `std::out_of_range`
thrown by `std::stoul` is not caught there and leaves the constructor. -/
def processLine (self : SFVFile) (ctr : Nat) (line : List Char) : Except Exception SFVFile :=
  if line.isEmpty then .ok self
  else if line.head? = some ';' then .ok self
  else
    let line := line.reverse
    match regex_match line with
    | none => .ok { self with ignored_lines_ := self.ignored_lines_ ++ [ctr] }
    | some matches_ =>
      if matches_.length ≠ 3 then
        .ok { self with ignored_lines_ := self.ignored_lines_ ++ [ctr] }
      else
        let checksum := (matches_.getD 1 []).reverse
        let filename := (matches_.getD 2 []).reverse
        match stoul checksum with
        | .ok value => .ok { self with data_ := self.data_ ++ [(filename, u32 value)] }
        | .error .invalid_argument =>
          .ok { self with ignored_lines_ := self.ignored_lines_ ++ [ctr] }
        | .error .out_of_range => .error .out_of_range

/-- The loop `while (getline(input, line, LINE_SEPARATOR))` of the
constructor.  Every call of `getline` that returns true consumes a byte or
leaves the stream not good, so `fuel` above the number of bytes left plus one
is never used up (`loop_fuel`). -/
def loop : Nat → ifstream → Nat → SFVFile → Except Exception (SFVFile × ifstream)
  | 0, input, _, self => .ok (self, input)
  | fuel + 1, input, ctr, self =>
    match getline input LINE_SEPARATOR with
    | (false, _, input) => .ok (self, input)
    | (true, line, input) =>
      match processLine self (u32 (ctr + 1)) line with
      | .ok self => loop fuel input (u32 (ctr + 1)) self
      | .error e => .error e

/-- Constructor `SFVFile(file)`.  The `filesystem_error` of
`is_regular_file` leaves the constructor before the file is opened. -/
def new (fs : FileSystem) (file : List Char) : Except Exception SFVFile :=
  match is_regular_file_error fs file with
  | some what => .error (.filesystem_error what)
  | none =>
    if !is_regular_file fs file then .error (.runtime_error "file not found".toList)
    else
      let input := ifstream.openFile fs file
      match loop (input.rest.length + 2) input 0 { ignored_lines_ := [], data_ := [] } with
      | .error e => .error e
      | .ok (self, input) =>
        if input.fail && !input.eof then .error (.runtime_error "couldn't read file".toList)
        else .ok self

def getIgnoredLines (self : SFVFile) : List Nat := self.ignored_lines_

def getData (self : SFVFile) : List (List Char × Nat) := self.data_

end SFVFile

/-! ## `boost::crc_32_type` and `sfv::computeCRC32` (`sfv.hpp` 126-142) -/

/-- One bit of the reflected CRC-32 division: shift right, and subtract the
reflected polynomial 0xEDB88320 when a one was shifted out. -/
def crcShift (r : Nat) : Nat :=
  if r % 2 = 1 then (r / 2) ^^^ 0xEDB88320 else r / 2

/-- Feeding one byte to the CRC register. -/
def crcByte (r : Nat) (b : Char) : Nat :=
  crcShift (crcShift (crcShift (crcShift (crcShift (crcShift (crcShift (crcShift
    (r ^^^ (b.toNat % 256)))))))))

/-- The register of a freshly constructed `boost::crc_32_type`. -/
def crcInit : Nat := 0xFFFFFFFF

/-- Member `process_bytes(buffer, count)` on the `count` bytes given. -/
def process_bytes (r : Nat) (bytes : List Char) : Nat := bytes.foldl crcByte r

/-- Member `checksum()`: the register with the final XOR value applied. -/
def checksum (r : Nat) : Nat := r ^^^ 0xFFFFFFFF

/-- CRC-32/IEEE of a byte string computed in one piece. -/
def crc32 (bytes : List Char) : Nat := checksum (process_bytes crcInit bytes)

/-- The loop `do { ifs.read(buffer, n); result.process_bytes(buffer, ifs.gcount()); }
while (ifs.good())` with buffer size `n`: the CRC register and the stream
after it, and the chunks handed to `process_bytes`, in order.  Every pass
that leaves the stream good has consumed `n` bytes, so for `0 < n` a `fuel`
above the number of bytes left is never used up (`readLoop_fuel`). -/
def readLoop (n : Nat) : Nat → ifstream → Nat → List (List Char) →
    Nat × ifstream × List (List Char)
  | 0, ifs, result, fed => (result, ifs, fed)
  | fuel + 1, ifs, result, fed =>
    let r := ifs.read n
    let result := process_bytes result r.1
    if r.2.good then readLoop n fuel r.2 result (fed ++ [r.1])
    else (result, r.2, fed ++ [r.1])

/-- Function `computeCRC32` with the buffer size as a parameter. -/
def computeCRC32With (n : Nat) (fs : FileSystem) (file : List Char) : Except Exception Nat :=
  let ifs := ifstream.openFile fs file
  if ifs.is_open then
    let r := readLoop n (ifs.rest.length + 1) ifs crcInit []
    if r.2.1.fail && !r.2.1.eof then .error (.io_error "couldn't read file".toList)
    else .ok (checksum r.1)
  else .error (.not_found "file not found".toList)

/-- Function `sfv::computeCRC32(file)`. -/
def computeCRC32 (fs : FileSystem) (file : List Char) : Except Exception Nat :=
  computeCRC32With BUFFER_SIZE fs file

/-! ## `sfv::SFVData` (`sfv.hpp` 144-189) -/

/-- What the C library delivers for the time stamps: the clock read by
`sfv::getTimestamp()` and the local-time rendering of a `std::time_t`. -/
structure TimeText where
  /-- Result of `sfv::getTimestamp()`, of the form `on 2009-06-13 at 20:20:00`. -/
  getTimestamp : List Char
  /-- The 19 characters that `strftime` with `%H:%M.%S %Y-%m-%d` leaves in
  the buffer for the local time of the argument. -/
  strftime : Int → List Char

/-- Member `boost::filesystem::path::filename()`: the part of the path after
its last `/`; a path that ends in `/` has the file name `.` (`/` when the
path is the root). -/
def filename (path : List Char) : List Char :=
  let last := (path.reverse.takeWhile (fun c => c != '/')).reverse
  if path.isEmpty then []
  else if !last.isEmpty then last
  else if path.all (fun c => c == '/') then ['/']
  else ['.']

/-- Upper-case hexadecimal digit of a value below 16. -/
def hexDigitUpper (d : Nat) : Char :=
  if d < 10 then Char.ofNat (48 + d) else Char.ofNat (55 + d)

/-- Digits of `n` in base 16, upper case, most significant first, in front
of `ds` (the conversion `%X`). -/
def upperHexCore : Nat → Nat → List Char → List Char
  | 0, _, ds => ds
  | fuel + 1, n, ds =>
    if n / 16 = 0 then hexDigitUpper (n % 16) :: ds
    else upperHexCore fuel (n / 16) (hexDigitUpper (n % 16) :: ds)

/-- The text `printf` produces for `%08X`: the upper-case hexadecimal digits,
padded on the left with `0` to at least eight characters. -/
def format08X (v : Nat) : List Char :=
  let digits := upperHexCore (v + 1) v []
  List.replicate (8 - digits.length) '0' ++ digits

/-- Function `std::to_string` on an unsigned value: its decimal digits. -/
def to_string (n : Nat) : List Char := Nat.toDigits 10 n

/-- Member `std::string::compare`: negative, zero or positive as the first
string is below, equal to or above the second in the lexicographic order of
their bytes, a proper prefix being below. -/
def string_compare : List Char → List Char → Int
  | [], [] => 0
  | [], _ :: _ => -1
  | _ :: _, [] => 1
  | a :: as, b :: bs =>
    if a.toNat < b.toNat then -1
    else if b.toNat < a.toNat then 1
    else string_compare as bs

structure SFVData where
  name_ : List Char
  size_ : Nat
  last_write_ : Int
  crc32_ : Nat
  deriving DecidableEq, Repr

namespace SFVData

/-- Constructor `SFVData(file)`.  The `filesystem_error` of
`is_regular_file` leaves the constructor before the file is read. -/
def new (fs : FileSystem) (file : List Char) : Except Exception SFVData :=
  match is_regular_file_error fs file with
  | some what => .error (.filesystem_error what)
  | none =>
    match fs file with
    | none => .error (.not_found "file not found".toList)
    | some node =>
      if !node.regular then .error (.not_found "file not found".toList)
      else
        match computeCRC32 fs file with
        | .error e => .error e
        | .ok crc =>
          .ok { name_ := filename file, size_ := node.size,
                last_write_ := node.last_write, crc32_ := crc }

def getName (self : SFVData) : List Char := self.name_

def getChecksum (self : SFVData) : Nat := self.crc32_

/-- Member `getFormattedChecksum`: `snprintf(buffer, 9, "%08X", crc32_)`
keeps at most eight characters of the formatted text, and the result is the
first eight characters of the buffer. -/
def getFormattedChecksum (self : SFVData) : List Char :=
  ((format08X self.crc32_).take (9 - 1)).take 8

def getSize (self : SFVData) : Nat := self.size_

def getFormattedSize (self : SFVData) : List Char := to_string self.size_

def getFormattedTimestamp (tt : TimeText) (self : SFVData) : List Char :=
  (tt.strftime self.last_write_).take 19

/-- Member `operator<`. -/
def lt (self lhs : SFVData) : Bool := decide (string_compare self.name_ lhs.name_ < 0)

end SFVData

/-- Order used for the model of `std::sort`: `a` may stand before `b` when
`b < a` does not hold. -/
def sortRel (a b : SFVData) : Prop := SFVData.lt b a = false

instance : DecidableRel sortRel := fun a b => by unfold sortRel; infer_instance

/-- Call `std::sort(data.begin(), data.end())`, which orders by `operator<`.
The records of a run have pairwise different names, so every sorting
algorithm returns the same list; insertion sort stands for it. -/
def sort (data : List SFVData) : List SFVData := data.insertionSort sortRel

/-! ## Output streams and the summaries' `operator<<` (`sfv.hpp` 256-282) -/

/-- The texts written to `std::cout` and `std::cerr` so far. -/
structure Streams where
  cout : List Char
  cerr : List Char
  deriving DecidableEq, Repr

/-- The manipulator `std::endl`. -/
def endl : List Char := ['\n']

/-- Text inserted by `operator<<(std::ostream&, const sfv::summary&)`. -/
def summary.text (s : summary) : List Char :=
  if s.duplicated_files > 1 then
    "WARNING: ".toList ++ to_string s.duplicated_files ++ " files ignored".toList ++ endl
  else if s.duplicated_files = 1 then "WARNING: 1 file ignored".toList ++ endl
  else []

/-- Text inserted by `operator<<(std::ostream&, const sfv::check_summary&)`. -/
def check_summary.text (s : check_summary) : List Char :=
  (if s.format_errors > 1 then
    "WARNING: ".toList ++ to_string s.format_errors ++
      " lines are improperly formatted".toList ++ endl
   else if s.format_errors = 1 then "WARNING: 1 line is improperly formatted".toList ++ endl
   else []) ++
  (if s.read_errors > 1 then
    "WARNING: ".toList ++ to_string s.read_errors ++
      " listed files could not be read".toList ++ endl
   else if s.read_errors = 1 then "WARNING: 1 listed file could not be read".toList ++ endl
   else []) ++
  (if s.check_errors > 1 then
    "WARNING: ".toList ++ to_string s.check_errors ++
      " computed checksums did NOT match".toList ++ endl
   else if s.check_errors = 1 then "WARNING: 1 computed checksum did NOT match".toList ++ endl
   else [])

/-! ## `main`, check mode (`sfvtool.cpp` 54-111) -/

/-- The boolean flags defined by `FLAGS_CASES`. -/
structure Flags where
  check : Bool
  ignore_missing : Bool
  quiet : Bool
  status : Bool
  strict : Bool
  warn : Bool
  deriving DecidableEq, Repr

/-- The state the check-mode loops carry: the summary and the two streams. -/
structure CheckState where
  summary : check_summary
  out : Streams
  deriving DecidableEq, Repr

/-- Body of the loop over `sfv.getData()` (`sfvtool.cpp` 67-90) for one entry.
`computeCRC32` throws nothing but `not_found` and `io_error`
(`computeCRC32_error`), so the last case is the handler of `io_error`. -/
def checkEntry (flags : Flags) (fs : FileSystem) (st : CheckState)
    (entry : List Char × Nat) : CheckState :=
  match computeCRC32 fs entry.1 with
  | .ok crc =>
    if crc = entry.2 then
      if !flags.quiet && !flags.status then
        { st with out := { st.out with cout := st.out.cout ++ entry.1 ++ ": OK".toList ++ endl } }
      else st
    else
      let st := { st with summary :=
        { st.summary with check_errors := u32 (st.summary.check_errors + 1) } }
      if !flags.status then
        { st with out := { st.out with cout := st.out.cout ++ entry.1 ++ ": FAILED".toList ++ endl } }
      else st
  | .error (.not_found _) =>
    if !flags.ignore_missing then
      let st := { st with summary :=
        { st.summary with read_errors := u32 (st.summary.read_errors + 1) } }
      if !flags.status then
        { st with out := { st.out with
            cout := st.out.cout ++ entry.1 ++ ": FAILED open or read".toList ++ endl } }
      else st
    else st
  | .error _ =>
    let st := { st with summary :=
      { st.summary with read_errors := u32 (st.summary.read_errors + 1) } }
    if !flags.status then
      { st with out := { st.out with
          cout := st.out.cout ++ entry.1 ++ ": FAILED open or read".toList ++ endl } }
    else st

/-- The line written for one ignored line when `warn` is set (`sfvtool.cpp` 63). -/
def warnLine (arg : List Char) (line : Nat) : List Char :=
  arg ++ [':'] ++ to_string line ++ ": improperly formatted SFV line".toList ++ endl

/-- Body of the loop over the manifest arguments (`sfvtool.cpp` 57-96) for
the argument `arg`.  The first handler takes every `std::runtime_error`, so
the `filesystem_error` as well. -/
def checkManifest (flags : Flags) (fs : FileSystem) (st : CheckState)
    (arg : List Char) : CheckState :=
  match SFVFile.new fs arg with
  | .ok sfv =>
    let st := { st with summary := { st.summary with
      format_errors := u32 (st.summary.format_errors + sfv.getIgnoredLines.length) } }
    let st :=
      if flags.warn then
        { st with out := { st.out with
            cerr := st.out.cerr ++ (sfv.getIgnoredLines.map (warnLine arg)).flatten } }
      else st
    sfv.getData.foldl (checkEntry flags fs) st
  | .error (.runtime_error what) =>
    { st with out := { st.out with cerr := st.out.cerr ++ arg ++ ": ".toList ++ what ++ endl } }
  | .error (.filesystem_error what) =>
    { st with out := { st.out with cerr := st.out.cerr ++ arg ++ ": ".toList ++ what ++ endl } }
  | .error _ =>
    { st with out := { st.out with
        cerr := st.out.cerr ++ arg ++ ": unexpected error".toList ++ endl } }

/-- The exit code chosen at `sfvtool.cpp` 102-111. -/
def checkExitCode (flags : Flags) (s : check_summary) : Int :=
  if flags.status && decide (s.check_errors > 0) then 1
  else if flags.status && !flags.ignore_missing && decide (s.read_errors > 0) then 1
  else if flags.strict && decide (s.format_errors > 0) then 1
  else 0

/-- Check mode: what `main` does from line 55 on for the manifest arguments
`args` (`argv[1]` to `argv[argc-1]`).  The result is the exit code, the final
summary and the texts written. -/
def mainCheck (flags : Flags) (fs : FileSystem) (args : List (List Char)) :
    Int × CheckState :=
  let st := args.foldl (checkManifest flags fs)
    { summary := {}, out := { cout := [], cerr := [] } }
  let st :=
    if !flags.status then
      { st with out := { st.out with cerr := st.out.cerr ++ st.summary.text } }
    else st
  (checkExitCode flags st.summary, st)

/-! ## `main`, generate mode (`sfvtool.cpp` 113-177) -/

/-- The state the collection loop carries: the summary, the vector `data`,
the set `files` of names seen, and `std::cerr`. -/
structure GenState where
  summary : summary
  data : List SFVData
  files : List (List Char)
  cerr : List Char
  deriving DecidableEq, Repr

/-- Body of the collection loop (`sfvtool.cpp` 119-141) for the argument `arg`.
The set `files` is a list of the names inserted so far.  The
`filesystem_error` of the call of `is_regular_file` at line 121 is neither a
`not_found` nor an `io_error`, so it reaches the last handler. -/
def collect (fs : FileSystem) (st : GenState) (arg : List Char) : GenState :=
  match is_regular_file_error fs arg with
  | some _ => { st with cerr := st.cerr ++ arg ++ ": unexpected error".toList ++ endl }
  | none =>
    if !is_regular_file fs arg then
      { st with cerr := st.cerr ++ arg ++ ": file not found".toList ++ endl }
    else
      let name := filename arg
      if name ∈ st.files then
        { st with
          summary := { duplicated_files := u32 (st.summary.duplicated_files + 1) },
          cerr := st.cerr ++ arg ++ ": filename already exists".toList ++ endl }
      else
        let st := { st with files := name :: st.files }
        match SFVData.new fs arg with
        | .ok record => { st with data := st.data ++ [record] }
        | .error (.not_found what) => { st with cerr := st.cerr ++ arg ++ ": ".toList ++ what ++ endl }
        | .error (.io_error what) => { st with cerr := st.cerr ++ arg ++ ": ".toList ++ what ++ endl }
        | .error _ => { st with cerr := st.cerr ++ arg ++ ": unexpected error".toList ++ endl }

/-- The collection loop over the arguments. -/
def collectAll (fs : FileSystem) (args : List (List Char)) : GenState :=
  args.foldl (collect fs) { summary := {}, data := [], files := [], cerr := [] }

/-- The width `n_max_size` computed at `sfvtool.cpp` 152-157. -/
def maxSizeWidth (data : List SFVData) : Nat :=
  data.foldl (fun n_max_size sfv_entry =>
    if n_max_size < sfv_entry.getFormattedSize.length then sfv_entry.getFormattedSize.length
    else n_max_size) 0

/-- The header written at `sfvtool.cpp` 148-150. -/
def headerText (tt : TimeText) : List Char :=
  [COMMENT, ' '] ++ HEADER ++ [' '] ++ tt.getTimestamp ++ LINE_SEPARATOR ++
    [COMMENT] ++ LINE_SEPARATOR

/-- One line of the size and time stamp table (`sfvtool.cpp` 160-165). -/
def tableLine (tt : TimeText) (n_max_size : Nat) (sfv_entry : SFVData) : List Char :=
  [COMMENT, ' '] ++
    List.replicate (n_max_size - sfv_entry.getFormattedSize.length) ' ' ++
    sfv_entry.getFormattedSize ++ [' '] ++
    sfv_entry.getFormattedTimestamp tt ++ [' '] ++
    sfv_entry.getName ++ LINE_SEPARATOR

/-- One checksum line (`sfvtool.cpp` 171-172). -/
def dataLine (sfv_entry : SFVData) : List Char :=
  sfv_entry.getName ++ [SEPARATOR] ++ sfv_entry.getFormattedChecksum ++ LINE_SEPARATOR

/-- Everything written to `std::cout` at `sfvtool.cpp` 148-173 for the sorted
vector `data`. -/
def render (tt : TimeText) (data : List SFVData) : List Char :=
  headerText tt ++
    (data.map (tableLine tt (maxSizeWidth data))).flatten ++
    ([COMMENT] ++ LINE_SEPARATOR) ++
    (data.map dataLine).flatten

/-- Generate mode: what `main` does from line 113 on for the arguments
`args`.  The result is the exit code and the texts written. -/
def mainGenerate (tt : TimeText) (fs : FileSystem) (args : List (List Char)) :
    Int × Streams :=
  let st := collectAll fs args
  if st.data.isEmpty then (0, { cout := [], cerr := st.cerr })
  else
    let data := sort st.data
    (0, { cout := render tt data, cerr := st.cerr ++ st.summary.text })

/-- Function `main` once the flags are parsed and at least one argument is
left (`sfvtool.cpp` 54). -/
def main (flags : Flags) (tt : TimeText) (fs : FileSystem) (args : List (List Char)) :
    Int × Streams :=
  if flags.check then
    let r := mainCheck flags fs args
    (r.1, r.2.out)
  else mainGenerate tt fs args

/-! ## Auxiliary definitions for the statements -/

/-- The lines that the loop `while (getline(input, line, LINE_SEPARATOR))`
sees, one per call of `getline` that returns true. -/
def getlines : Nat → ifstream → List (List Char)
  | 0, _ => []
  | fuel + 1, input =>
    match getline input LINE_SEPARATOR with
    | (false, _, _) => []
    | (true, line, input) => line :: getlines fuel input

/-- A freshly opened good stream over the bytes `content` that ends with the
end of the file. -/
def streamOf (content : List Char) : ifstream :=
  { is_open := true, rest := content, device_error := false,
    eofbit := false, failbit := false, badbit := false }

/-- The specification of the line reader, in the words of the format: the
content cut at every occurrence of the two bytes CR LF, the last piece
included. -/
def splitAtCRLF : List Char → List (List Char)
  | [] => [[]]
  | [c] => [[c]]
  | c :: d :: rest =>
    if c = '\r' ∧ d = '\n' then [] :: splitAtCRLF rest
    else
      match splitAtCRLF (d :: rest) with
      | [] => [[c]]
      | piece :: pieces => (c :: piece) :: pieces

/-- The effect of the constructor's loop body on a list of lines, the line
counter being `ctr` before the first of them. -/
def processLines : SFVFile → Nat → List (List Char) → Except Exception SFVFile
  | self, _, [] => .ok self
  | self, ctr, line :: lines =>
    match SFVFile.processLine self (u32 (ctr + 1)) line with
    | .ok self => processLines self (u32 (ctr + 1)) lines
    | .error e => .error e

/-- A regular readable file with the given content. -/
def regularFile (content : List Char) : FileNode :=
  { regular := true, readable := true, content := content, device_error := false,
    size := content.length, last_write := 0 }

/-- The file system that holds one regular file `path` with the given content. -/
def singleFile (path content : List Char) : FileSystem :=
  fun p => if p = path then some (regularFile content) else none

/-- The sixteen characters of upper-case hexadecimal notation. -/
def isUpperHexDigit (c : Char) : Bool :=
  (48 ≤ c.toNat && c.toNat ≤ 57) || (65 ≤ c.toNat && c.toNat ≤ 70)

/-- A byte that `getline` hands through unchanged: neither CR nor 0xFF. -/
def plainByte (c : Char) : Bool := c != '\r' && c != '\xff'

/-- The text of a checksum line without its line separator. -/
def dataBody (d : SFVData) : List Char := d.getName ++ [' '] ++ d.getFormattedChecksum

/-- The text of a table line without its line separator. -/
def tableBody (tt : TimeText) (w : Nat) (d : SFVData) : List Char :=
  [';', ' '] ++ List.replicate (w - d.getFormattedSize.length) ' ' ++ d.getFormattedSize ++
    [' '] ++ d.getFormattedTimestamp tt ++ [' '] ++ d.getName

/-- The lines of the rendered manifest, without their line separators. -/
def renderLines (tt : TimeText) (data : List SFVData) : List (List Char) :=
  ([[';', ' '] ++ HEADER ++ [' '] ++ tt.getTimestamp, [';']] ++
    data.map (tableBody tt (maxSizeWidth data)) ++ [[';']]) ++ data.map dataBody

/-- A rendering of the time stamps with the layout the C library gives them. -/
def sampleTime : TimeText :=
  { getTimestamp := "on 2009-06-13 at 20:20:00".toList,
    strftime := fun _ => "20:20.00 2009-06-15".toList }

/-- A small file system: the manifest `m.sfv`, the file `x` that matches its
entry, the file `y` that does not, and the directory `dir`, which opens but
cannot be read. -/
def sampleFs : FileSystem := fun p =>
  if p = "m.sfv".toList then
    some (regularFile "x CBF43926\r\ny 00000000\r\nbad 123\r\nnone 00000000\r\n".toList)
  else if p = "x".toList then some (regularFile "123456789".toList)
  else if p = "y".toList then some (regularFile "123456789".toList)
  else if p = "dir".toList then
    some { regular := false, readable := true, content := [], device_error := true,
           size := 0, last_write := 0 }
  else none

/-- Check mode with no other flag. -/
def plainFlags : Flags :=
  { check := true, ignore_missing := false, quiet := false, status := false,
    strict := false, warn := false }

/-- The strict order of records by name that `operator<` decides. -/
def nameBelow (a b : SFVData) : Prop := string_compare a.name_ b.name_ < 0

/-- The invariant of the collection loop: the records have pairwise different
names, and every name of a record is in the set `files`. -/
def collectInv (st : GenState) : Prop :=
  (st.data.map SFVData.name_).Nodup ∧ ∀ d ∈ st.data, d.name_ ∈ st.files

/-- The entry that the constructor's loop body makes of a line, if any: the
line is not empty, does not begin with `;`, and its reversal matches the
pattern. -/
def entryOf (line : List Char) : Option (List Char × Nat) :=
  if line.isEmpty then none
  else if line.head? = some ';' then none
  else
    match regex_match line.reverse with
    | none => none
    | some matches_ => some ((matches_.getD 2 []).reverse, hexValue (matches_.getD 1 []).reverse)

/-- A line that is neither empty nor a comment. -/
def isDataCandidate (line : List Char) : Bool :=
  !line.isEmpty && !(line.head? == some ';')

/-- A line that is neither empty nor a comment and that the pattern rejects. -/
def isIgnoredLine (line : List Char) : Bool :=
  isDataCandidate line && (regex_match line.reverse).isNone

/-- The effect of the loop body on the two vectors, as the kind of the line
decides it. -/
def lineStep (self : SFVFile) (ctr : Nat) (line : List Char) : SFVFile :=
  match entryOf line with
  | some e => { ignored_lines_ := self.ignored_lines_, data_ := self.data_ ++ [e] }
  | none =>
    if isIgnoredLine line then
      { ignored_lines_ := self.ignored_lines_ ++ [ctr], data_ := self.data_ }
    else self

/-- The line numbers that the loop records for the ignored lines among
`lines`, the line counter being `ctr` before the first of them. -/
def ignoredNumbers : Nat → List (List Char) → List Nat
  | _, [] => []
  | ctr, line :: lines =>
    (if isIgnoredLine line then [u32 (ctr + 1)] else []) ++ ignoredNumbers (u32 (ctr + 1)) lines

/-- The 1-based positions of the ignored lines among `lines`. -/
def ignoredPositions (lines : List (List Char)) : List Nat :=
  ((List.range lines.length).filter (fun i => isIgnoredLine (lines.getD i []))).map (fun i => i + 1)

/-- The state of a stream that never meets a device error: it is good or has
reached the end of the file. -/
def streamInv (s : ifstream) : Prop :=
  s.device_error = false ∧ (s.good = true ∨ s.eofbit = true)

/-- The lines of a file with the given content, as the calls of `getline` in
the constructor's loop yield them. -/
def linesOf (content : List Char) : List (List Char) :=
  getlines (content.length + 2) (streamOf content)

/-- A manifest with comments, an empty line, two entries that are not in the
order of their names, and two malformed lines. -/
def sampleManifest : List Char :=
  "; c\r\n\r\nb 00000002\r\nbad\r\na 00000001\r\n; x\r\nworse line\r\n".toList

/-- Every CR byte of the content is immediately followed by an LF byte. -/
def everyCRBeforeLF : List Char → Bool
  | [] => true
  | [c] => c != '\r'
  | c :: d :: rest =>
    if c = '\r' then d == '\n' && everyCRBeforeLF rest else everyCRBeforeLF (d :: rest)

/-- The counters after the loop body for one entry, as a function of the
counters before it: of the flags only ignore_missing takes part. -/
def entrySummary (ignore_missing : Bool) (fs : FileSystem) (s : check_summary)
    (entry : List Char × Nat) : check_summary :=
  match computeCRC32 fs entry.1 with
  | .ok crc =>
    if crc = entry.2 then s
    else { s with check_errors := u32 (s.check_errors + 1) }
  | .error (.not_found _) =>
    if ignore_missing then s
    else { s with read_errors := u32 (s.read_errors + 1) }
  | .error _ => { s with read_errors := u32 (s.read_errors + 1) }

/-- The counters after the loop body for one manifest argument, as a
function of the counters before it. -/
def manifestSummary (ignore_missing : Bool) (fs : FileSystem) (s : check_summary)
    (arg : List Char) : check_summary :=
  match SFVFile.new fs arg with
  | .ok sfv =>
    sfv.getData.foldl (entrySummary ignore_missing fs)
      { s with format_errors := u32 (s.format_errors + sfv.getIgnoredLines.length) }
  | .error _ => s

/-- Field-wise sum of two summaries in 32-bit arithmetic. -/
def summaryPlus (a b : check_summary) : check_summary :=
  { format_errors := u32 (a.format_errors + b.format_errors),
    read_errors := u32 (a.read_errors + b.read_errors),
    check_errors := u32 (a.check_errors + b.check_errors) }

/-- The counters have 32-bit values. -/
def summaryBounded (s : check_summary) : Prop :=
  s.format_errors < 4294967296 ∧ s.read_errors < 4294967296 ∧ s.check_errors < 4294967296

/-- The number of regular-file inputs among `args` whose file name equals the
file name of an earlier regular-file input, the inputs before `args` being
`earlier`. -/
def countDuplicates (fs : FileSystem) : List (List Char) → List (List Char) → Nat
  | _, [] => 0
  | earlier, arg :: args =>
    (if is_regular_file fs arg &&
        earlier.any (fun e => is_regular_file fs e && filename e == filename arg)
      then 1 else 0) + countDuplicates fs (earlier ++ [arg]) args

/-- The set `files` holds the file names of the regular-file inputs met so
far. -/
def filesInv (fs : FileSystem) (st : GenState) (earlier : List (List Char)) : Prop :=
  ∀ name : List Char, name ∈ st.files ↔
    earlier.any (fun e => is_regular_file fs e && filename e == name) = true

/-- A file system with the file `x` in three directories: readable in `a`
and `b`, a regular file that cannot be opened in `c`. -/
def dirsFs : FileSystem := fun p =>
  if p = "a/x".toList then some (regularFile "123456789".toList)
  else if p = "b/x".toList then some (regularFile "other".toList)
  else if p = "c/x".toList then
    some { regular := true, readable := false, content := [], device_error := false,
           size := 0, last_write := 0 }
  else none

/-- A file system with the one path `locked/x`, whose status cannot be read. -/
def lockedFs : FileSystem := fun p =>
  if p = "locked/x".toList then
    some { regular := false, readable := false, content := [], device_error := false,
           size := 0, last_write := 0,
           status_error := some "boost::filesystem::status: Permission denied".toList }
  else none

/-! ## Characters and hexadecimal strings -/

theorem char_eq_of_toNat_eq {c d : Char} (h : c.toNat = d.toNat) : c = d := by
  apply Char.ext; apply UInt32.ext; exact h

theorem isspace_false_of_isHexDigit {c : Char} (h : isHexDigit c = true) :
    isspace c = false := by
  cases hs : isspace c with
  | false => rfl
  | true =>
    simp only [isspace, Bool.or_eq_true, beq_iff_eq] at hs
    rcases hs with ((((rfl | rfl) | rfl) | rfl) | rfl) | rfl <;> revert h <;> decide

theorem hexDigitValue_lt (c : Char) : hexDigitValue c < 16 := by
  unfold hexDigitValue
  split_ifs <;> omega

theorem hexValue_foldl_lt (l : List Char) (acc : Nat) :
    l.foldl (fun acc c => 16 * acc + hexDigitValue c) acc + 1 ≤ (acc + 1) * 16 ^ l.length := by
  induction l generalizing acc with
  | nil => simp
  | cons c t ih =>
    simp only [List.foldl_cons, List.length_cons]
    have h1 := ih (16 * acc + hexDigitValue c)
    have h2 := hexDigitValue_lt c
    have h3 : (16 * acc + hexDigitValue c + 1) * 16 ^ t.length ≤ (16 * (acc + 1)) * 16 ^ t.length :=
      Nat.mul_le_mul_right _ (by omega)
    calc _ ≤ (16 * acc + hexDigitValue c + 1) * 16 ^ t.length := h1
      _ ≤ (16 * (acc + 1)) * 16 ^ t.length := h3
      _ = (acc + 1) * 16 ^ (t.length + 1) := by ring

theorem hexValue_lt (l : List Char) : hexValue l < 16 ^ l.length := by
  have := hexValue_foldl_lt l 0
  unfold hexValue
  omega

theorem takeWhile_eq_self_of_all {p : Char → Bool} (l : List Char) (h : ∀ c ∈ l, p c = true) :
    l.takeWhile p = l := by
  induction l with
  | nil => rfl
  | cons c t ih =>
    have hc := h c (List.mem_cons_self _ _)
    simp only [List.takeWhile_cons, hc, if_true]
    rw [ih (fun d hd => h d (List.mem_cons_of_mem _ hd))]

/-- On a non-empty string of hexadecimal digits whose value fits 64 bits
`std::stoul` returns that value. -/
theorem stoul_hexDigits (h : List Char) (hne : h ≠ []) (hhex : ∀ c ∈ h, isHexDigit c = true)
    (hb : hexValue h ≤ 18446744073709551615) : stoul h = .ok (hexValue h) := by
  obtain ⟨c, t, rfl⟩ := List.exists_cons_of_ne_nil hne
  have hc := hhex c (List.mem_cons_self _ _)
  have hsp := isspace_false_of_isHexDigit hc
  have h1 : (c :: t).dropWhile isspace = c :: t := by simp [List.dropWhile_cons, hsp]
  have hm : c ≠ '-' := by rintro rfl; revert hc; decide
  have hp : c ≠ '+' := by rintro rfl; revert hc; decide
  have h2 : stoulSign (c :: t) = (false, c :: t) := by simp [stoulSign, hm, hp]
  have h3 : stoulPrefix (c :: t) = c :: t := by
    unfold stoulPrefix
    split
    · next z x d t' heq =>
      have hx : isHexDigit x = true := by
        apply hhex; rw [heq]; simp
      have hx1 : x ≠ 'x' := by rintro rfl; revert hx; decide
      have hx2 : x ≠ 'X' := by rintro rfl; revert hx; decide
      simp [hx1, hx2, heq]
    · rfl
  have h4 : (c :: t).takeWhile isHexDigit = c :: t := takeWhile_eq_self_of_all _ hhex
  unfold stoul
  simp only [h1, h2, h3, h4]
  have : ¬ (18446744073709551615 < hexValue (c :: t)) := by omega
  simp [this]

/-! ## The line pattern -/

theorem regex_match_reverse (f h : List Char) (hf : f ≠ [])
    (hnul : ∀ c ∈ f, c ≠ '\x00') (hlen : h.length = 8)
    (hhex : ∀ c ∈ h, isHexDigit c = true) :
    regex_match (f ++ [' '] ++ h).reverse =
      some [(f ++ [' '] ++ h).reverse, h.reverse, f.reverse] := by
  have hrev : (f ++ [' '] ++ h).reverse = h.reverse ++ ' ' :: f.reverse := by simp
  have hl : h.reverse.length = 8 := by simp [hlen]
  have htake : (h.reverse ++ ' ' :: f.reverse).take 8 = h.reverse := by
    rw [← hl]; exact List.take_left' rfl
  have hdrop : (h.reverse ++ ' ' :: f.reverse).drop 8 = ' ' :: f.reverse := by
    rw [← hl]; exact List.drop_left' rfl
  have h1 : h.reverse.all isHexDigit = true := by
    simp only [List.all_eq_true, List.mem_reverse]; exact hhex
  have h2 : f.reverse ≠ [] := by simpa using hf
  have h3 : f.reverse.all matchesAny = true := by
    simp only [List.all_eq_true, List.mem_reverse, matchesAny, bne_iff_ne]; exact hnul
  rw [hrev]
  unfold regex_match
  simp only [htake, hdrop]
  simp [hl, h1, h2, h3, SEPARATOR]

theorem regex_match_some {s : List Char} {m : List (List Char)} (h : regex_match s = some m) :
    m = [s, s.take 8, (s.drop 8).tail] ∧ (s.take 8).length = 8 ∧
      (∀ c ∈ s.take 8, isHexDigit c = true) ∧ (s.drop 8).head? = some ' ' ∧
      (s.drop 8).tail ≠ [] := by
  unfold regex_match at h
  split at h
  · exact absurd h (by simp)
  · next sep group2 heq =>
    simp only at h
    split_ifs at h with hc
    obtain ⟨h1, h2, h3, h4, _⟩ := hc
    simp only [Option.some.injEq] at h
    rw [heq]
    refine ⟨by simpa using h.symm, h1, ?_, by simp [h3, SEPARATOR], by simpa using h4⟩
    simpa [List.all_eq_true] using h2

/-- A line the pattern accepts, read backwards, is a non-empty name, one
space and eight hexadecimal digits. -/
theorem form_of_regex_match {line : List Char} {m : List (List Char)}
    (h : regex_match line.reverse = some m) :
    ∃ f g, f ≠ [] ∧ g.length = 8 ∧ (∀ c ∈ g, isHexDigit c = true) ∧ line = f ++ [' '] ++ g := by
  obtain ⟨_, h1, h2, h3, h4⟩ := regex_match_some h
  refine ⟨((line.reverse.drop 8).tail).reverse, (line.reverse.take 8).reverse,
    by simpa using h4, by simpa using h1, by simpa using h2, ?_⟩
  have hd : line.reverse.drop 8 = ' ' :: (line.reverse.drop 8).tail := by
    cases hx : line.reverse.drop 8 with
    | nil => rw [hx] at h3; simp at h3
    | cons a t => rw [hx] at h3; simp at h3; simp [h3]
  have : line.reverse = line.reverse.take 8 ++ ' ' :: (line.reverse.drop 8).tail := by
    conv_lhs => rw [← List.take_append_drop 8 line.reverse, hd]
  have h5 := congrArg List.reverse this
  simpa using h5

/-! ## One line of a manifest -/

theorem processLine_of_form (self : SFVFile) (ctr : Nat) (f h : List Char) (hf : f ≠ [])
    (hsemi : f.head? ≠ some ';') (hnul : ∀ c ∈ f, c ≠ '\x00') (hlen : h.length = 8)
    (hhex : ∀ c ∈ h, isHexDigit c = true) :
    SFVFile.processLine self ctr (f ++ [' '] ++ h) =
      .ok { ignored_lines_ := self.ignored_lines_, data_ := self.data_ ++ [(f, hexValue h)] } := by
  obtain ⟨a, t, rfl⟩ := List.exists_cons_of_ne_nil hf
  have hv : hexValue h < 4294967296 := by
    have := hexValue_lt h
    rw [hlen] at this
    exact this
  have hne : h ≠ [] := by
    intro h0; rw [h0] at hlen; simp at hlen
  have hst := stoul_hexDigits h hne hhex (by omega)
  have hre := regex_match_reverse (a :: t) h hf hnul hlen hhex
  have hhead : (a :: t ++ [' '] ++ h).head? = some a := by simp
  have ha : a ≠ ';' := by
    intro h0; apply hsemi; simp [h0]
  unfold SFVFile.processLine
  rw [hhead]
  simp only [hre]
  simp [ha, hst, u32, Nat.mod_eq_of_lt hv]

theorem processLine_not_form (self : SFVFile) (ctr : Nat) (line : List Char) (hne : line ≠ [])
    (hsemi : line.head? ≠ some ';')
    (hform : ¬ ∃ f h, f ≠ [] ∧ h.length = 8 ∧ (∀ c ∈ h, isHexDigit c = true) ∧
      line = f ++ [' '] ++ h) :
    SFVFile.processLine self ctr line =
      .ok { ignored_lines_ := self.ignored_lines_ ++ [ctr], data_ := self.data_ } := by
  unfold SFVFile.processLine
  have h1 : line.isEmpty = false := by
    cases line with
    | nil => exact absurd rfl hne
    | cons a t => rfl
  cases hm : regex_match line.reverse with
  | none => simp [h1, hsemi, hm]
  | some m => exact absurd (form_of_regex_match hm) hform

/-- C1: a manifest line made of a non-empty file name `f` that does not begin
with `;` (and, being a file name, holds no NUL byte), one space, and eight
hexadecimal digits `h` in any mix of cases makes the loop body of the
`SFVFile` constructor append exactly the entry `(f, base-16 value of h)` and
leaves the ignored lines as they were. -/
theorem processLine_entry (self : SFVFile) (ctr : Nat) (f h : List Char) (hf : f ≠ [])
    (hsemi : f.head? ≠ some ';') (hnul : ∀ c ∈ f, c ≠ '\x00') (hlen : h.length = 8)
    (hhex : ∀ c ∈ h, isHexDigit c = true) :
    SFVFile.processLine self ctr (f ++ [' '] ++ h) =
      .ok { ignored_lines_ := self.ignored_lines_, data_ := self.data_ ++ [(f, hexValue h)] } :=
  processLine_of_form self ctr f h hf hsemi hnul hlen hhex

/-- C1 at the lines of the specification: `my file name.txt DEADBEEF` gives
the name `my file name.txt` with the checksum `0xDEADBEEF`, and `x deadbeef`
gives the same checksum as `x DEADBEEF`. -/
theorem processLine_entry_witness :
    ("my file name.txt".toList ≠ [] ∧ "my file name.txt".toList.head? ≠ some ';' ∧
      (∀ c ∈ "my file name.txt".toList, c ≠ '\x00') ∧ "DEADBEEF".toList.length = 8 ∧
      (∀ c ∈ "DEADBEEF".toList, isHexDigit c = true)) ∧
    SFVFile.processLine { ignored_lines_ := [], data_ := [] } 1
        "my file name.txt DEADBEEF".toList =
      .ok { ignored_lines_ := [], data_ := [("my file name.txt".toList, 0xDEADBEEF)] } ∧
    SFVFile.processLine { ignored_lines_ := [], data_ := [] } 1 "x deadbeef".toList =
      .ok { ignored_lines_ := [], data_ := [("x".toList, 0xDEADBEEF)] } ∧
    SFVFile.processLine { ignored_lines_ := [], data_ := [] } 1 "x DEADBEEF".toList =
      .ok { ignored_lines_ := [], data_ := [("x".toList, 0xDEADBEEF)] } :=
  ⟨⟨by decide, by decide, by decide, by decide, by decide⟩,
   processLine_entry { ignored_lines_ := [], data_ := [] } 1 "my file name.txt".toList
     "DEADBEEF".toList (by decide) (by decide) (by decide) (by decide) (by decide),
   processLine_entry { ignored_lines_ := [], data_ := [] } 1 "x".toList
     "deadbeef".toList (by decide) (by decide) (by decide) (by decide) (by decide),
   processLine_entry { ignored_lines_ := [], data_ := [] } 1 "x".toList
     "DEADBEEF".toList (by decide) (by decide) (by decide) (by decide) (by decide)⟩

/-- C2: a non-empty line that does not begin with `;` and is not a non-empty
name, one space and exactly eight hexadecimal digits as its last eight
characters makes the loop body record the line number among the ignored lines
and add no entry; the loop then goes on with the stream that `getline` left. -/
theorem processLine_ignored (self : SFVFile) (ctr : Nat) (line : List Char) (hne : line ≠ [])
    (hsemi : line.head? ≠ some ';')
    (hform : ¬ ∃ f h, f ≠ [] ∧ h.length = 8 ∧ (∀ c ∈ h, isHexDigit c = true) ∧
      line = f ++ [' '] ++ h) :
    SFVFile.processLine self ctr line =
        .ok { ignored_lines_ := self.ignored_lines_ ++ [ctr], data_ := self.data_ } ∧
      ∀ (fuel n : Nat) (input input' : ifstream),
        getline input LINE_SEPARATOR = (true, line, input') →
        SFVFile.loop (fuel + 1) input n self =
          SFVFile.loop fuel input' (u32 (n + 1))
            { ignored_lines_ := self.ignored_lines_ ++ [u32 (n + 1)], data_ := self.data_ } := by
  refine ⟨processLine_not_form self ctr line hne hsemi hform, ?_⟩
  intro fuel n input input' hg
  have hp := processLine_not_form self (u32 (n + 1)) line hne hsemi hform
  simp only [SFVFile.loop, hg, hp]

theorem not_form_of_length_lt (line : List Char) (hl : line.length < 10) :
    ¬ ∃ f h, f ≠ [] ∧ h.length = 8 ∧ (∀ c ∈ h, isHexDigit c = true) ∧ line = f ++ [' '] ++ h := by
  rintro ⟨f, h, hf, hlen, -, heq⟩
  have := congrArg List.length heq
  have hf' : 0 < f.length := List.length_pos.mpr hf
  simp at this
  omega

/-- C2 at the line `bad 123`, whose checksum field has fewer than eight
digits. -/
theorem processLine_ignored_witness :
    SFVFile.processLine { ignored_lines_ := [], data_ := [] } 5 "bad 123".toList =
        .ok { ignored_lines_ := [5], data_ := [] } :=
  (processLine_ignored { ignored_lines_ := [], data_ := [] } 5 "bad 123".toList (by decide)
    (by decide) (not_form_of_length_lt _ (by decide))).1

/-! ## The rendering `%08X` -/

theorem isHexDigit_of_isUpperHexDigit {c : Char} (h : isUpperHexDigit c = true) :
    isHexDigit c = true := by
  simp only [isUpperHexDigit, isHexDigit, Bool.or_eq_true, Bool.and_eq_true, decide_eq_true_eq] at *
  omega

theorem hexDigitUpper_spec (d : Nat) (h : d < 16) :
    isUpperHexDigit (hexDigitUpper d) = true ∧ hexDigitValue (hexDigitUpper d) = d := by
  interval_cases d <;> decide

theorem hexValue_foldl (l : List Char) (acc : Nat) :
    l.foldl (fun acc c => 16 * acc + hexDigitValue c) acc = acc * 16 ^ l.length + hexValue l := by
  induction l generalizing acc with
  | nil => simp [hexValue]
  | cons c t ih =>
    unfold hexValue
    simp only [List.foldl_cons, List.length_cons]
    rw [ih, ih (16 * 0 + hexDigitValue c)]
    ring

theorem hexValue_cons (c : Char) (t : List Char) :
    hexValue (c :: t) = hexDigitValue c * 16 ^ t.length + hexValue t := by
  have := hexValue_foldl t (16 * 0 + hexDigitValue c)
  unfold hexValue at *
  simp only [List.foldl_cons]
  rw [this]
  ring_nf

theorem hexValue_upperHexCore (fuel n : Nat) (ds : List Char) (h : n < 16 ^ fuel) :
    hexValue (upperHexCore fuel n ds) = n * 16 ^ ds.length + hexValue ds := by
  induction fuel generalizing n ds with
  | zero =>
    have : n = 0 := by simpa using h
    simp [upperHexCore, this]
  | succ k ih =>
    unfold upperHexCore
    have hd := (hexDigitUpper_spec (n % 16) (Nat.mod_lt _ (by norm_num))).2
    split_ifs with h0
    · rw [hexValue_cons, hd]
      have : n % 16 = n := by omega
      rw [this]
    · have hlt : n / 16 < 16 ^ k := by
        rw [Nat.div_lt_iff_lt_mul (by norm_num)]
        rw [pow_succ] at h
        exact h
      rw [ih _ _ hlt, hexValue_cons, hd, List.length_cons, pow_succ]
      have h16 := Nat.div_add_mod n 16
      calc n / 16 * (16 ^ ds.length * 16) + (n % 16 * 16 ^ ds.length + hexValue ds)
          = (16 * (n / 16) + n % 16) * 16 ^ ds.length + hexValue ds := by ring
        _ = n * 16 ^ ds.length + hexValue ds := by rw [h16]

theorem length_upperHexCore (fuel n k : Nat) (ds : List Char) (h : n < 16 ^ (k + 1)) :
    (upperHexCore fuel n ds).length ≤ k + 1 + ds.length := by
  induction fuel generalizing n k ds with
  | zero => simp [upperHexCore]
  | succ m ih =>
    unfold upperHexCore
    split_ifs with h0
    · simp only [List.length_cons]; omega
    · cases k with
      | zero => omega
      | succ j =>
        have hlt : n / 16 < 16 ^ (j + 1) := by
          rw [Nat.div_lt_iff_lt_mul (by norm_num)]
          rw [pow_succ] at h
          exact h
        have := ih (n / 16) j (hexDigitUpper (n % 16) :: ds) hlt
        simp only [List.length_cons] at this
        omega

theorem all_upperHexCore (fuel n : Nat) (ds : List Char)
    (h : ∀ c ∈ ds, isUpperHexDigit c = true) :
    ∀ c ∈ upperHexCore fuel n ds, isUpperHexDigit c = true := by
  induction fuel generalizing n ds with
  | zero => simpa [upperHexCore] using h
  | succ m ih =>
    have hd := (hexDigitUpper_spec (n % 16) (Nat.mod_lt _ (by norm_num))).1
    have h' : ∀ c ∈ hexDigitUpper (n % 16) :: ds, isUpperHexDigit c = true := by
      intro c hc
      rcases List.mem_cons.mp hc with rfl | hc
      · exact hd
      · exact h c hc
    unfold upperHexCore
    split_ifs with h0
    · exact h'
    · exact ih _ _ h'

theorem hexValue_replicate_zero (k : Nat) (ds : List Char) :
    hexValue (List.replicate k '0' ++ ds) = hexValue ds := by
  induction k with
  | zero => simp
  | succ j ih =>
    rw [List.replicate_succ, List.cons_append, hexValue_cons, ih]
    have : hexDigitValue '0' = 0 := by decide
    simp [this]

/-- What `%08X` makes of a 32-bit value: eight upper-case hexadecimal digits
whose value is the number. -/
theorem format08X_spec (v : Nat) (hv : v < 4294967296) :
    (format08X v).length = 8 ∧ (∀ c ∈ format08X v, isUpperHexDigit c = true) ∧
      hexValue (format08X v) = v := by
  have hlen : (upperHexCore (v + 1) v []).length ≤ 8 := by
    have := length_upperHexCore (v + 1) v 7 [] (by norm_num; omega)
    simpa using this
  have hall := all_upperHexCore (v + 1) v [] (by simp)
  have hval := hexValue_upperHexCore (v + 1) v [] (lt_trans (Nat.lt_succ_self v) (Nat.lt_pow_self (by norm_num : 1 < 16) _))
  unfold format08X
  refine ⟨by simp; omega, ?_, ?_⟩
  · intro c hc
    rcases List.mem_append.mp hc with h | h
    · have := (List.mem_replicate.mp h).2
      rw [this]; decide
    · exact hall c h
  · rw [hexValue_replicate_zero, hval]
    simp [hexValue]

theorem mem_upperHexDigits {c : Char} (h : isUpperHexDigit c = true) :
    c ∈ "0123456789ABCDEF".toList := by
  have hc : c = Char.ofNat c.toNat := (Char.ofNat_toNat c).symm
  simp only [isUpperHexDigit, Bool.or_eq_true, Bool.and_eq_true, decide_eq_true_eq] at h
  generalize c.toNat = n at h hc
  subst hc
  rcases h with ⟨h1, h2⟩ | ⟨h1, h2⟩ <;> interval_cases n <;> decide

theorem getFormattedChecksum_eq (self : SFVData) (h : self.crc32_ < 4294967296) :
    self.getFormattedChecksum = format08X self.crc32_ := by
  have hl := (format08X_spec _ h).1
  unfold SFVData.getFormattedChecksum
  rw [List.take_take]
  exact List.take_of_length_le (by omega)

/-- C8: for a 32-bit checksum `getFormattedChecksum` returns exactly eight
characters, each one of `0`-`9` or `A`-`F`, namely the upper-case hexadecimal
digits of the value with `0` filled in on the left; their base-16 value is the
checksum, and `std::stoul` in base 16 followed by the cast to 32 bits, as in
the manifest parser, gives the checksum back. -/
theorem getFormattedChecksum_spec (self : SFVData) (h : self.crc32_ < 4294967296) :
    self.getFormattedChecksum.length = 8 ∧
      (∀ c ∈ self.getFormattedChecksum, c ∈ "0123456789ABCDEF".toList) ∧
      (∃ k, self.getFormattedChecksum =
        List.replicate k '0' ++ upperHexCore (self.crc32_ + 1) self.crc32_ []) ∧
      hexValue self.getFormattedChecksum = self.crc32_ ∧
      (stoul self.getFormattedChecksum).map u32 = .ok self.crc32_ := by
  have hs := format08X_spec _ h
  have he := getFormattedChecksum_eq self h
  rw [he]
  refine ⟨hs.1, fun c hc => mem_upperHexDigits (hs.2.1 c hc), ⟨_, rfl⟩, hs.2.2, ?_⟩
  have hne : format08X self.crc32_ ≠ [] := by
    intro h0
    have := hs.1
    rw [h0] at this
    simp at this
  rw [stoul_hexDigits _ hne (fun c hc => isHexDigit_of_isUpperHexDigit (hs.2.1 c hc))
    (by rw [hs.2.2]; omega), hs.2.2]
  simp [Except.map, u32, Nat.mod_eq_of_lt h]

/-- C8 at the checksum `0xDEADBEEF` and at the checksum `0xABC`, which is
padded to `00000ABC`. -/
theorem getFormattedChecksum_spec_witness :
    (3735928559 < 4294967296 ∧
      SFVData.getFormattedChecksum
        { name_ := [], size_ := 0, last_write_ := 0, crc32_ := 3735928559 } =
          "DEADBEEF".toList ∧
      SFVData.getFormattedChecksum
        { name_ := [], size_ := 0, last_write_ := 0, crc32_ := 2748 } = "00000ABC".toList) ∧
    (stoul (SFVData.getFormattedChecksum
      { name_ := [], size_ := 0, last_write_ := 0, crc32_ := 3735928559 })).map u32 =
        .ok 3735928559 :=
  ⟨⟨by decide, by decide, by decide⟩,
   (getFormattedChecksum_spec
     { name_ := [], size_ := 0, last_write_ := 0, crc32_ := 3735928559 } (by decide)).2.2.2.2⟩

/-! ## Reading lines that hold neither CR nor 0xFF -/

theorem plainByte_spec {c : Char} (h : plainByte c = true) :
    isEofChar c = false ∧ c ≠ '\r' := by
  simp only [plainByte, Bool.and_eq_true, bne_iff_ne, ne_eq] at h
  refine ⟨?_, h.1⟩
  cases he : isEofChar c with
  | false => rfl
  | true =>
    exfalso
    apply h.2
    apply char_eq_of_toNat_eq
    simpa [isEofChar] using he

theorem getlineLoop_done (rest output buffer : List Char) :
    getlineLoop LINE_SEPARATOR rest 2 buffer output = (output, some rest) := by
  cases rest <;> simp [getlineLoop, LINE_SEPARATOR]

theorem getlineLoop_plain (seg rest output : List Char) (h : ∀ c ∈ seg, plainByte c = true) :
    getlineLoop LINE_SEPARATOR (seg ++ LINE_SEPARATOR ++ rest) 0 [] output =
      (output ++ seg, some rest) := by
  induction seg generalizing output with
  | nil =>
    have e1 : isEofChar '\r' = false := by decide
    have e2 : isEofChar '\n' = false := by decide
    simp [getlineLoop, LINE_SEPARATOR, e1, e2]
    exact getlineLoop_done rest output _
  | cons c t ih =>
    have hc := plainByte_spec (h c (List.mem_cons_self _ _))
    have ht := ih (output ++ [c]) (fun d hd => h d (List.mem_cons_of_mem _ hd))
    have hne : ¬ ('\r' = c) := fun h0 => hc.2 h0.symm
    simp only [List.cons_append, getlineLoop]
    simp only [LINE_SEPARATOR, List.length_cons, List.length_nil, List.get?_cons_zero,
      Option.some.injEq, hc.1, hne] at ht ⊢
    simp only [List.append_assoc, List.cons_append, List.nil_append, List.append_nil] at ht ⊢
    simpa using ht

theorem exhausted_rest (input : ifstream) (r : List Char) :
    ({ input with rest := r } : ifstream).exhausted = input.exhausted := by
  unfold ifstream.exhausted
  simp

theorem getline_plain (input : ifstream) (seg rest : List Char) (hg : input.good = true)
    (hr : input.rest = seg ++ LINE_SEPARATOR ++ rest) (h : ∀ c ∈ seg, plainByte c = true) :
    getline input LINE_SEPARATOR = (true, seg, { input with rest := rest }) := by
  unfold getline
  rw [hr, getlineLoop_plain seg rest [] h]
  simp [hg, LINE_SEPARATOR]

theorem getline_at_end (input : ifstream) (hg : input.good = true) (hr : input.rest = []) :
    getline input LINE_SEPARATOR = (true, [], input.exhausted) := by
  unfold getline
  rw [hr]
  simp [hg, LINE_SEPARATOR, getlineLoop]

theorem exhausted_not_good (input : ifstream) : input.exhausted.good = false := by
  unfold ifstream.exhausted ifstream.good
  split_ifs <;> simp

theorem getline_not_good (input : ifstream) (hg : input.good = false) :
    getline input LINE_SEPARATOR = (false, [], input) := by
  unfold getline
  simp [hg]

/-- The constructor's loop on a stream that holds the given lines, each
followed by CR LF: the loop body runs on every line and then on one final
empty line, and the stream ends exhausted. -/
theorem loop_lines (lines : List (List Char)) :
    ∀ (fuel : Nat) (input : ifstream) (ctr : Nat) (self : SFVFile),
      input.good = true →
      input.rest = (lines.map (fun l => l ++ LINE_SEPARATOR)).flatten →
      (∀ l ∈ lines, ∀ c ∈ l, plainByte c = true) →
      lines.length + 2 ≤ fuel →
      SFVFile.loop fuel input ctr self =
        (processLines self ctr lines).map (fun s => (s, input.exhausted)) := by
  induction lines with
  | nil =>
    intro fuel input ctr self hg hr _ hf
    obtain ⟨k, rfl⟩ : ∃ k, fuel = k + 1 + 1 := ⟨fuel - 2, by omega⟩
    have hr' : input.rest = [] := by simpa using hr
    simp only [SFVFile.loop, getline_at_end input hg hr',
      getline_not_good _ (exhausted_not_good input), processLines]
    simp [SFVFile.processLine, Except.map]
  | cons l ls ih =>
    intro fuel input ctr self hg hr hp hf
    obtain ⟨k, rfl⟩ : ∃ k, fuel = k + 1 := ⟨fuel - 1, by simp at hf; omega⟩
    have hr' : input.rest = l ++ LINE_SEPARATOR ++
        (ls.map (fun l => l ++ LINE_SEPARATOR)).flatten := by
      simpa using hr
    have hgl := getline_plain input l _ hg hr' (hp l (List.mem_cons_self _ _))
    simp only [SFVFile.loop, hgl, processLines]
    cases hpl : SFVFile.processLine self (u32 (ctr + 1)) l with
    | error e => simp [Except.map]
    | ok s =>
      simp only
      have := ih k { input with rest := (ls.map (fun l => l ++ LINE_SEPARATOR)).flatten }
        (u32 (ctr + 1)) s (by simpa [ifstream.good] using hg) rfl
        (fun l' hl' => hp l' (List.mem_cons_of_mem _ hl')) (by simp at hf; omega)
      rw [this, exhausted_rest]

/-! ## Termination of the constructor's loop -/

theorem getlineLoop_length (delim : List Char) (rest : List Char) :
    ∀ (idx : Nat) (buffer output o rest' : List Char),
      getlineLoop delim rest idx buffer output = (o, some rest') →
      rest'.length ≤ rest.length ∧ (idx < delim.length → rest'.length < rest.length) := by
  induction rest with
  | nil =>
    intro idx buffer output o rest' h
    unfold getlineLoop at h
    split_ifs at h with h1
    · simp at h
    · simp only [Prod.mk.injEq, Option.some.injEq] at h
      rw [← h.2]
      exact ⟨le_refl _, fun h2 => absurd h2 h1⟩
  | cons c r ih =>
    intro idx buffer output o rest' h
    unfold getlineLoop at h
    split_ifs at h with h1 h2 h3
    · simp only [Prod.mk.injEq, Option.some.injEq] at h
      rw [← h.2]
      simp
    · have := (ih _ _ _ _ _ h).1
      simp only [List.length_cons]
      exact ⟨by omega, fun _ => by omega⟩
    · have := (ih _ _ _ _ _ h).1
      simp only [List.length_cons]
      exact ⟨by omega, fun _ => by omega⟩
    · simp only [Prod.mk.injEq, Option.some.injEq] at h
      rw [← h.2]
      exact ⟨le_refl _, fun h2 => absurd h2 h1⟩

/-- A call of `getline` that returns true was made on a good stream and leaves
the stream either no longer good or with fewer bytes. -/
theorem getline_decreases (input input' : ifstream) (line : List Char)
    (h : getline input LINE_SEPARATOR = (true, line, input')) :
    input.good = true ∧
      (input'.good = false ∨ (input'.good = true ∧ input'.rest.length < input.rest.length)) := by
  unfold getline at h
  by_cases hg : input.good = true
  · refine ⟨hg, ?_⟩
    simp only [hg, Bool.not_true, Bool.false_eq_true, if_false, LINE_SEPARATOR,
      List.isEmpty_cons] at h
    split at h
    · next output rest' heq =>
      simp only [Prod.mk.injEq, true_and] at h
      right
      rw [← h.2]
      refine ⟨by simpa [ifstream.good] using hg, ?_⟩
      exact (getlineLoop_length _ _ _ _ _ _ _ heq).2 (by simp)
    · simp only [Prod.mk.injEq, true_and] at h
      left
      rw [← h.2]
      exact exhausted_not_good input
  · simp only [Bool.not_eq_true] at hg
    simp [hg] at h

/-- The constructor's loop does not depend on the fuel once the fuel exceeds
the number of bytes left by more than one: the loop always ends because
`getline` returns false. -/
theorem loop_fuel (fuel1 : Nat) :
    ∀ (fuel2 : Nat) (input : ifstream) (ctr : Nat) (self : SFVFile),
      (input.good = true → input.rest.length + 1 < fuel1) →
      (input.good = true → input.rest.length + 1 < fuel2) →
      SFVFile.loop fuel1 input ctr self = SFVFile.loop fuel2 input ctr self := by
  induction fuel1 with
  | zero =>
    intro fuel2 input ctr self h1 h2
    have hg : input.good = false := by
      cases h : input.good with
      | false => rfl
      | true => exact absurd (h1 h) (by omega)
    cases fuel2 with
    | zero => rfl
    | succ m => simp [SFVFile.loop, getline_not_good input hg]
  | succ k ih =>
    intro fuel2 input ctr self h1 h2
    cases hgl : getline input LINE_SEPARATOR with
    | mk flag r =>
      obtain ⟨line, input'⟩ := r
      cases flag with
      | false =>
        cases fuel2 with
        | zero =>
          have hg : input.good = false := by
            cases h : input.good with
            | false => rfl
            | true => exact absurd (h2 h) (by omega)
          rw [getline_not_good input hg] at hgl
          simp only [Prod.mk.injEq, true_and] at hgl
          simp [SFVFile.loop, getline_not_good input hg]
        | succ m => simp [SFVFile.loop, hgl]
      | true =>
        obtain ⟨hg, hdec⟩ := getline_decreases input input' line hgl
        obtain ⟨m, rfl⟩ : ∃ m, fuel2 = m + 1 := ⟨fuel2 - 1, by have := h2 hg; omega⟩
        simp only [SFVFile.loop, hgl]
        cases SFVFile.processLine self (u32 (ctr + 1)) line with
        | error e => rfl
        | ok s =>
          simp only
          apply ih
          · intro hg'
            rcases hdec with hd | hd
            · rw [hd] at hg'; exact absurd hg' (by simp)
            · have := h1 hg; omega
          · intro hg'
            rcases hdec with hd | hd
            · rw [hd] at hg'; exact absurd hg' (by simp)
            · have := h2 hg; omega

/-! ## The rendered manifest read back -/

theorem processLines_comments (lines : List (List Char)) (h : ∀ l ∈ lines, l.head? = some ';') :
    ∀ (self : SFVFile) (ctr : Nat) (more : List (List Char)),
      ∃ ctr', processLines self ctr (lines ++ more) = processLines self ctr' more := by
  induction lines with
  | nil => intro self ctr more; exact ⟨ctr, rfl⟩
  | cons l ls ih =>
    intro self ctr more
    have hl := h l (List.mem_cons_self _ _)
    have hp : SFVFile.processLine self (u32 (ctr + 1)) l = .ok self := by
      unfold SFVFile.processLine
      simp [hl]
    obtain ⟨c', hc'⟩ := ih (fun l' hl' => h l' (List.mem_cons_of_mem _ hl')) self
      (u32 (ctr + 1)) more
    refine ⟨c', ?_⟩
    rw [List.cons_append]
    simp only [processLines, hp]
    exact hc'

theorem processLines_data (data : List SFVData)
    (hn : ∀ d ∈ data, d.name_ ≠ [] ∧ d.name_.head? ≠ some ';' ∧ ∀ c ∈ d.name_, c ≠ '\x00')
    (hc : ∀ d ∈ data, d.crc32_ < 4294967296) :
    ∀ (self : SFVFile) (ctr : Nat),
      processLines self ctr (data.map dataBody) =
        .ok { ignored_lines_ := self.ignored_lines_,
              data_ := self.data_ ++ data.map (fun d => (d.name_, d.crc32_)) } := by
  induction data with
  | nil => intro self ctr; simp [processLines]
  | cons d ds ih =>
    intro self ctr
    obtain ⟨h1, h2, h3⟩ := hn d (List.mem_cons_self _ _)
    have hcrc := hc d (List.mem_cons_self _ _)
    have hs := format08X_spec _ hcrc
    have he := getFormattedChecksum_eq d hcrc
    have hp := processLine_of_form self (u32 (ctr + 1)) d.name_ d.getFormattedChecksum h1 h2 h3
      (by rw [he]; exact hs.1)
      (by rw [he]; exact fun c hc => isHexDigit_of_isUpperHexDigit (hs.2.1 c hc))
    rw [he, hs.2.2] at hp
    rw [← he] at hp
    simp only [List.map_cons, processLines, dataBody, SFVData.getName, hp]
    rw [ih (fun d' hd' => hn d' (List.mem_cons_of_mem _ hd'))
      (fun d' hd' => hc d' (List.mem_cons_of_mem _ hd'))]
    simp

theorem render_eq_lines (tt : TimeText) (data : List SFVData) :
    render tt data = ((renderLines tt data).map (fun l => l ++ LINE_SEPARATOR)).flatten := by
  have h1 : ∀ w, (data.map (tableLine tt w)) =
      (data.map (tableBody tt w)).map (fun l => l ++ LINE_SEPARATOR) := by
    intro w
    rw [List.map_map]
    apply List.map_congr_left
    intro d _
    simp [tableLine, tableBody, COMMENT]
  have h2 : data.map dataLine = (data.map dataBody).map (fun l => l ++ LINE_SEPARATOR) := by
    rw [List.map_map]
    apply List.map_congr_left
    intro d _
    simp [dataLine, dataBody, SEPARATOR]
  unfold render renderLines headerText
  rw [h1, h2]
  simp [COMMENT, List.flatten_append]

theorem toDigitsCore_digits (fuel n : Nat) (ds : List Char)
    (h : ∀ c ∈ ds, 48 ≤ c.toNat ∧ c.toNat ≤ 57) :
    ∀ c ∈ Nat.toDigitsCore 10 fuel n ds, 48 ≤ c.toNat ∧ c.toNat ≤ 57 := by
  induction fuel generalizing n ds with
  | zero => simpa [Nat.toDigitsCore] using h
  | succ m ih =>
    have hd : 48 ≤ (Nat.digitChar (n % 10)).toNat ∧ (Nat.digitChar (n % 10)).toNat ≤ 57 := by
      have : n % 10 < 10 := Nat.mod_lt _ (by norm_num)
      generalize n % 10 = k at this
      interval_cases k <;> decide
    have h' : ∀ c ∈ Nat.digitChar (n % 10) :: ds, 48 ≤ c.toNat ∧ c.toNat ≤ 57 := by
      intro c hc
      rcases List.mem_cons.mp hc with rfl | hc
      · exact hd
      · exact h c hc
    unfold Nat.toDigitsCore
    simp only
    split_ifs with h0
    · exact h'
    · exact ih _ _ h'

theorem plainByte_of_range {c : Char} (h : 32 ≤ c.toNat ∧ c.toNat ≤ 127) :
    plainByte c = true := by
  simp only [plainByte, Bool.and_eq_true, bne_iff_ne, ne_eq]
  constructor <;> (rintro rfl; revert h; decide)

theorem plainByte_to_string (n : Nat) : ∀ c ∈ to_string n, plainByte c = true := by
  intro c hc
  have := toDigitsCore_digits (n + 1) n [] (by simp) c hc
  exact plainByte_of_range (by omega)

theorem plainByte_of_isUpperHexDigit {c : Char} (h : isUpperHexDigit c = true) :
    plainByte c = true := by
  simp only [isUpperHexDigit, Bool.or_eq_true, Bool.and_eq_true, decide_eq_true_eq] at h
  exact plainByte_of_range (by omega)

theorem plainByte_renderLines (tt : TimeText) (data : List SFVData)
    (htime : (∀ c ∈ tt.getTimestamp, plainByte c = true) ∧
      ∀ t, ∀ c ∈ tt.strftime t, plainByte c = true)
    (hnames : ∀ d ∈ data, ∀ c ∈ d.name_, plainByte c = true)
    (hcrc : ∀ d ∈ data, d.crc32_ < 4294967296) :
    ∀ l ∈ renderLines tt data, ∀ c ∈ l, plainByte c = true := by
  have hH : ∀ c ∈ HEADER, plainByte c = true := by decide
  intro l hl c hc
  simp only [renderLines, List.mem_append, List.mem_cons, List.mem_map, List.mem_singleton,
    List.not_mem_nil, or_false] at hl
  rcases hl with (((rfl | rfl) | ⟨d, hd, rfl⟩) | rfl) | ⟨d, hd, rfl⟩
  · simp only [List.mem_append, List.mem_cons, List.mem_singleton, List.not_mem_nil,
      or_false] at hc
    rcases hc with (((rfl | rfl) | hc) | rfl) | hc
    · decide
    · decide
    · exact hH c hc
    · decide
    · exact htime.1 c hc
  · simp only [List.mem_singleton] at hc
    rw [hc]; decide
  · simp only [tableBody, List.mem_append, List.mem_cons, List.mem_singleton,
      List.not_mem_nil, or_false, List.mem_replicate, SFVData.getFormattedSize,
      SFVData.getFormattedTimestamp, SFVData.getName] at hc
    rcases hc with ((((((rfl | rfl) | ⟨_, rfl⟩) | hc) | rfl) | hc) | rfl) | hc
    · decide
    · decide
    · decide
    · exact plainByte_to_string _ c hc
    · decide
    · exact htime.2 _ c (List.mem_of_mem_take hc)
    · decide
    · exact hnames d hd c hc
  · simp only [List.mem_singleton] at hc
    rw [hc]; decide
  · simp only [dataBody, List.mem_append, List.mem_singleton, SFVData.getName] at hc
    rcases hc with (hc | rfl) | hc
    · exact hnames d hd c hc
    · decide
    · rw [getFormattedChecksum_eq d (hcrc d hd)] at hc
      exact plainByte_of_isUpperHexDigit ((format08X_spec _ (hcrc d hd)).2.1 c hc)

/-! ## A status that cannot be read -/

theorem is_regular_file_error_of_regular (fs : FileSystem) (file : List Char)
    (node : FileNode) (hfile : fs file = some node) (hreg : node.regular = true) :
    is_regular_file_error fs file = none := by
  unfold is_regular_file_error
  rw [hfile]
  simp [hreg]

theorem is_regular_file_of_error (fs : FileSystem) (file what : List Char)
    (h : is_regular_file_error fs file = some what) : is_regular_file fs file = false := by
  unfold is_regular_file_error at h
  unfold is_regular_file
  cases hf : fs file with
  | none => rfl
  | some node =>
    rw [hf] at h
    simp only at h
    split_ifs at h with hr
    simpa using hr

theorem is_regular_file_error_of_regular_file (fs : FileSystem) (file : List Char)
    (h : is_regular_file fs file = true) : is_regular_file_error fs file = none := by
  cases he : is_regular_file_error fs file with
  | none => rfl
  | some what => rw [is_regular_file_of_error fs file what he] at h; exact absurd h (by simp)

theorem processLines_renderLines (tt : TimeText) (data : List SFVData)
    (hn : ∀ d ∈ data, d.name_ ≠ [] ∧ d.name_.head? ≠ some ';' ∧ ∀ c ∈ d.name_, c ≠ '\x00')
    (hc : ∀ d ∈ data, d.crc32_ < 4294967296) :
    processLines { ignored_lines_ := [], data_ := [] } 0 (renderLines tt data) =
      .ok { ignored_lines_ := [], data_ := data.map (fun d => (d.name_, d.crc32_)) } := by
  have hcom : ∀ l ∈ [[';', ' '] ++ HEADER ++ [' '] ++ tt.getTimestamp, [';']] ++
      data.map (tableBody tt (maxSizeWidth data)) ++ [[';']], l.head? = some ';' := by
    intro l hl
    simp only [List.mem_append, List.mem_cons, List.mem_map, List.mem_singleton,
      List.not_mem_nil, or_false] at hl
    rcases hl with ((rfl | rfl) | ⟨d, _, rfl⟩) | rfl <;> simp [tableBody]
  obtain ⟨c', hc'⟩ := processLines_comments _ hcom { ignored_lines_ := [], data_ := [] } 0
    (data.map dataBody)
  unfold renderLines
  rw [hc', processLines_data data hn hc]
  simp

theorem length_le_flatten_lines (lines : List (List Char)) :
    lines.length ≤ ((lines.map (fun l => l ++ LINE_SEPARATOR)).flatten).length := by
  induction lines with
  | nil => simp
  | cons l ls ih =>
    simp only [List.map_cons, List.flatten_cons, List.length_append, List.length_cons]
    have : LINE_SEPARATOR.length = 2 := rfl
    omega

theorem new_of_lines (path : List Char) (lines : List (List Char)) (s : SFVFile)
    (hp : ∀ l ∈ lines, ∀ c ∈ l, plainByte c = true)
    (hs : processLines { ignored_lines_ := [], data_ := [] } 0 lines = .ok s) :
    SFVFile.new (singleFile path ((lines.map (fun l => l ++ LINE_SEPARATOR)).flatten)) path =
      .ok s := by
  have hloop := loop_lines lines
    (((lines.map (fun l => l ++ LINE_SEPARATOR)).flatten).length + 2)
    (streamOf ((lines.map (fun l => l ++ LINE_SEPARATOR)).flatten)) 0
    { ignored_lines_ := [], data_ := [] } rfl rfl hp
    (by have := length_le_flatten_lines lines; omega)
  rw [hs] at hloop
  unfold SFVFile.new
  simp only [is_regular_file_error, is_regular_file, singleFile, regularFile,
    ifstream.openFile, if_true, Bool.not_true, Bool.false_eq_true, if_false]
  simp only [streamOf] at hloop
  rw [hloop]
  simp [Except.map, ifstream.exhausted, ifstream.fail, ifstream.eof]

/-- C3 (amended): for every list of file records whose names are non-empty,
do not begin with `;` and hold no CR, no 0xFF and no NUL byte, with 32-bit
checksums and arbitrary sizes and time stamps (whose renderings hold no CR
and no 0xFF byte), the text that generate mode writes, read back by the
`SFVFile` constructor, gives exactly the `(name, checksum)` pairs of the
records, in the same order, and no ignored line. -/
theorem render_roundtrip (tt : TimeText) (data : List SFVData) (path : List Char)
    (htime : (∀ c ∈ tt.getTimestamp, c ≠ '\r' ∧ c ≠ '\xff') ∧
      ∀ t, ∀ c ∈ tt.strftime t, c ≠ '\r' ∧ c ≠ '\xff')
    (hnames : ∀ d ∈ data, d.name_ ≠ [] ∧ d.name_.head? ≠ some ';' ∧
      ∀ c ∈ d.name_, c ≠ '\r' ∧ c ≠ '\xff' ∧ c ≠ '\x00')
    (hcrc : ∀ d ∈ data, d.crc32_ < 4294967296) :
    SFVFile.new (singleFile path (render tt data)) path =
      .ok { ignored_lines_ := [], data_ := data.map (fun d => (d.name_, d.crc32_)) } := by
  have hpb : ∀ c : Char, c ≠ '\r' ∧ c ≠ '\xff' → plainByte c = true := by
    intro c hc
    simp [plainByte, hc.1, hc.2]
  rw [render_eq_lines]
  apply new_of_lines
  · exact plainByte_renderLines tt data
      ⟨fun c hc => hpb c (htime.1 c hc), fun t c hc => hpb c (htime.2 t c hc)⟩
      (fun d hd c hc => hpb c ⟨((hnames d hd).2.2 c hc).1, ((hnames d hd).2.2 c hc).2.1⟩) hcrc
  · exact processLines_renderLines tt data
      (fun d hd => ⟨(hnames d hd).1, (hnames d hd).2.1,
        fun c hc => ((hnames d hd).2.2 c hc).2.2⟩) hcrc

/-- C3 (amended) at two records, one of them with spaces and a line feed in
its name. -/
theorem render_roundtrip_witness :
    SFVFile.new (singleFile "m.sfv".toList (render sampleTime
        [{ name_ := "a b\nc.txt".toList, size_ := 12, last_write_ := 0, crc32_ := 3735928559 },
         { name_ := "b".toList, size_ := 5, last_write_ := 7, crc32_ := 1 }])) "m.sfv".toList =
      .ok { ignored_lines_ := [],
            data_ := [("a b\nc.txt".toList, 3735928559), ("b".toList, 1)] } :=
  render_roundtrip sampleTime
    [{ name_ := "a b\nc.txt".toList, size_ := 12, last_write_ := 0, crc32_ := 3735928559 },
     { name_ := "b".toList, size_ := 5, last_write_ := 7, crc32_ := 1 }] "m.sfv".toList
    ⟨by decide,
     fun _ => (by decide : ∀ c ∈ "20:20.00 2009-06-15".toList, c ≠ '\r' ∧ c ≠ '\xff')⟩
    (by decide) (by decide)

set_option maxRecDepth 1000000 in
/-- C3 as stated fails: a record whose name begins with `;` is rendered as a
line that the parser takes for a comment, so the entry is lost; a name that
holds a CR byte comes back as an ignored line, and a name that holds the byte
0xFF comes back as two ignored lines and an entry under another name. -/
theorem render_roundtrip_counterexample :
    SFVFile.new (singleFile "m.sfv".toList (render sampleTime
        [{ name_ := ";x".toList, size_ := 0, last_write_ := 0, crc32_ := 0 }])) "m.sfv".toList ≠
      .ok { ignored_lines_ := [], data_ := [(";x".toList, 0)] } ∧
    SFVFile.new (singleFile "m.sfv".toList (render sampleTime
        [{ name_ := ";x".toList, size_ := 0, last_write_ := 0, crc32_ := 0 }])) "m.sfv".toList =
      .ok { ignored_lines_ := [], data_ := [] } ∧
    SFVFile.new (singleFile "m.sfv".toList (render sampleTime
        [{ name_ := "a\rb".toList, size_ := 0, last_write_ := 0, crc32_ := 0 }])) "m.sfv".toList =
      .ok { ignored_lines_ := [5], data_ := [] } ∧
    SFVFile.new (singleFile "m.sfv".toList (render sampleTime
        [{ name_ := "a\xffb".toList, size_ := 0, last_write_ := 0, crc32_ := 0 }])) "m.sfv".toList =
      .ok { ignored_lines_ := [4, 6], data_ := [("b".toList, 0)] } := by
  refine ⟨?_, ?_, ?_, ?_⟩ <;> decide

/-! ## The line reader on arbitrary bytes -/

/-- C4 does not hold of the code.  On the content `a CR b LF c` the calls of
`getline` yield the two lines `a CR b` and `c`, cutting at the lone LF, where
the content has no CR LF and is one line by the format; on `CR CR LF x` the
first line comes out as `CR CR` instead of `CR`; and on `a 0xFF b` the byte
0xFF ends the line `a` and is dropped. -/
theorem getlines_not_splitAtCRLF :
    getlines 7 (streamOf "a\rb\nc".toList) = ["a\rb".toList, "c".toList] ∧
      splitAtCRLF "a\rb\nc".toList = ["a\rb\nc".toList] ∧
    getlines 6 (streamOf "\r\r\nx".toList) = ["\r\r".toList, "x".toList] ∧
      splitAtCRLF "\r\r\nx".toList = ["\r".toList, "x".toList] ∧
    getlines 5 (streamOf "a\xffb".toList) = ["a".toList, "b".toList] ∧
      splitAtCRLF "a\xffb".toList = ["a\xffb".toList] := by
  refine ⟨?_, ?_, ?_, ?_, ?_, ?_⟩ <;> decide

/-! ## The exit code of check mode -/

/-- C5: the exit code of check mode is 1 exactly when status is set and
`check_errors > 0`, or status is set, ignore_missing is not and
`read_errors > 0`, or strict is set and `format_errors > 0`, and 0 otherwise;
`main` returns this code for the final counters.  With status and strict
unset the code is 0 whatever the counters, and when the only problem is one
read error the code is 1 only with status set (and ignore_missing unset). -/
theorem checkExitCode_spec (flags : Flags) (s : check_summary) (fs : FileSystem)
    (args : List (List Char)) :
    (checkExitCode flags s =
      if (flags.status = true ∧ s.check_errors > 0) ∨
          (flags.status = true ∧ flags.ignore_missing = false ∧ s.read_errors > 0) ∨
          (flags.strict = true ∧ s.format_errors > 0) then 1 else 0) ∧
    (mainCheck flags fs args).1 = checkExitCode flags (mainCheck flags fs args).2.summary ∧
    checkExitCode { flags with status := false, strict := false } s = 0 ∧
    (checkExitCode flags { format_errors := 0, read_errors := 1, check_errors := 0 } =
      if flags.status = true ∧ flags.ignore_missing = false then 1 else 0) := by
  obtain ⟨c, im, q, st, sr, w⟩ := flags
  refine ⟨?_, ?_, ?_, ?_⟩
  · by_cases h1 : s.check_errors > 0 <;> by_cases h2 : s.read_errors > 0 <;>
      by_cases h3 : s.format_errors > 0 <;> cases st <;> cases im <;> cases sr <;>
      simp [checkExitCode, h1, h2, h3]
  · unfold mainCheck
    cases st <;> simp
  · simp [checkExitCode]
  · cases st <;> cases im <;> cases sr <;> simp [checkExitCode]

/-! ## Check mode: what is written and what is counted -/

/-- C7: when `computeCRC32` fails for an entry, the entry changes nothing if
the failure is `not_found` and ignore_missing is set; in every other case
(`not_found` without ignore_missing, or `io_error` whatever ignore_missing is)
`read_errors` goes up by one, as a 32-bit counter, and the line
`<name>: FAILED open or read` is written to standard output unless status is
set.  `format_errors`, `check_errors` and the error stream never change. -/
theorem checkEntry_failure (flags : Flags) (fs : FileSystem) (st : CheckState)
    (entry : List Char × Nat) (e : Exception) (what : List Char)
    (hfail : computeCRC32 fs entry.1 = .error e)
    (hkind : e = .not_found what ∨ e = .io_error what) :
    checkEntry flags fs st entry =
        (if e = .not_found what ∧ flags.ignore_missing = true then st
         else
          { summary :=
              { format_errors := st.summary.format_errors,
                read_errors := u32 (st.summary.read_errors + 1),
                check_errors := st.summary.check_errors },
            out :=
              { cout :=
                  if flags.status = true then st.out.cout
                  else st.out.cout ++ entry.1 ++ ": FAILED open or read".toList ++ endl,
                cerr := st.out.cerr } }) ∧
      (st.summary.read_errors < 4294967295 →
        u32 (st.summary.read_errors + 1) = st.summary.read_errors + 1) := by
  refine ⟨?_, fun h => Nat.mod_eq_of_lt (by omega)⟩
  unfold checkEntry
  rw [hfail]
  rcases hkind with rfl | rfl
  · cases him : flags.ignore_missing <;> cases hst : flags.status <;> simp
  · cases him : flags.ignore_missing <;> cases hst : flags.status <;> simp

/-- C7 on the sample file system: the missing file `none` and the unreadable
`dir` each count one read error and are reported on standard output, and with
ignore_missing set the missing file changes nothing while `dir` still
counts. -/
theorem checkEntry_failure_witness :
    (computeCRC32 sampleFs "none".toList = .error (.not_found "file not found".toList) ∧
      computeCRC32 sampleFs "dir".toList = .error (.io_error "couldn't read file".toList)) ∧
    checkEntry plainFlags sampleFs
        { summary := {}, out := { cout := [], cerr := [] } } ("none".toList, 0) =
      { summary := { format_errors := 0, read_errors := 1, check_errors := 0 },
        out := { cout := "none: FAILED open or read\n".toList, cerr := [] } } ∧
    checkEntry { plainFlags with ignore_missing := true } sampleFs
        { summary := {}, out := { cout := [], cerr := [] } } ("none".toList, 0) =
      { summary := {}, out := { cout := [], cerr := [] } } ∧
    checkEntry { plainFlags with ignore_missing := true } sampleFs
        { summary := {}, out := { cout := [], cerr := [] } } ("dir".toList, 0) =
      { summary := { format_errors := 0, read_errors := 1, check_errors := 0 },
        out := { cout := "dir: FAILED open or read\n".toList, cerr := [] } } :=
  ⟨⟨by decide, by decide⟩,
   (checkEntry_failure plainFlags sampleFs { summary := {}, out := { cout := [], cerr := [] } }
      ("none".toList, 0) _ "file not found".toList (by decide) (Or.inl rfl)).1.trans
      (by decide),
   (checkEntry_failure { plainFlags with ignore_missing := true } sampleFs
      { summary := {}, out := { cout := [], cerr := [] } }
      ("none".toList, 0) _ "file not found".toList (by decide) (Or.inl rfl)).1.trans
      (by decide),
   (checkEntry_failure { plainFlags with ignore_missing := true } sampleFs
      { summary := {}, out := { cout := [], cerr := [] } }
      ("dir".toList, 0) _ "couldn't read file".toList (by decide) (Or.inr rfl)).1.trans
      (by decide)⟩

/-! ## `computeCRC32` -/

theorem read_good (ifs : ifstream) (n : Nat) (h : (ifs.read n).2.good = true) :
    ifs.good = true ∧ n ≤ ifs.rest.length ∧
      ifs.read n = (ifs.rest.take n, { ifs with rest := ifs.rest.drop n }) := by
  unfold ifstream.read at h ⊢
  by_cases hg : ifs.good = true
  · by_cases hn : n ≤ ifs.rest.length
    · simp [hg, hn]
    · simp only [hg, hn, Bool.not_true, Bool.false_eq_true, if_false] at h
      rw [exhausted_not_good] at h
      exact absurd h (by simp)
  · simp only [hg, Bool.not_eq_true] at h
    simp only [Bool.not_eq_true] at hg
    simp [hg, ifstream.good] at h

/-- The read loop does not depend on the fuel once the fuel exceeds the
number of bytes left. -/
theorem readLoop_fuel (n : Nat) (hn : 0 < n) (fuel1 : Nat) :
    ∀ (fuel2 : Nat) (ifs : ifstream) (result : Nat) (fed : List (List Char)),
      ifs.rest.length < fuel1 → ifs.rest.length < fuel2 →
      readLoop n fuel1 ifs result fed = readLoop n fuel2 ifs result fed := by
  induction fuel1 with
  | zero => intro fuel2 ifs result fed h1; omega
  | succ k ih =>
    intro fuel2 ifs result fed h1 h2
    obtain ⟨m, rfl⟩ : ∃ m, fuel2 = m + 1 := ⟨fuel2 - 1, by omega⟩
    unfold readLoop
    simp only
    by_cases hg : (ifs.read n).2.good = true
    · obtain ⟨_, hle, hread⟩ := read_good ifs n hg
      simp only [hg, if_true]
      apply ih
      · rw [hread]; simp only [List.length_drop]; omega
      · rw [hread]; simp only [List.length_drop]; omega
    · simp [hg]

theorem readLoop_spec (n : Nat) (hn : 0 < n) (fuel : Nat) :
    ∀ (ifs : ifstream) (result : Nat) (fed : List (List Char)),
      ifs.good = true → ifs.device_error = false → ifs.rest.length < fuel →
      ∃ chunks, readLoop n fuel ifs result fed =
          (process_bytes result ifs.rest,
            { ifs with rest := [], eofbit := true, failbit := true }, fed ++ chunks) ∧
        chunks.flatten = ifs.rest ∧ ∀ c ∈ chunks, c.length ≤ n := by
  induction fuel with
  | zero => intro ifs result fed _ _ h; omega
  | succ k ih =>
    intro ifs result fed hg hd hlt
    unfold readLoop
    simp only
    by_cases hle : n ≤ ifs.rest.length
    · have hread : ifs.read n = (ifs.rest.take n, { ifs with rest := ifs.rest.drop n }) := by
        simp [ifstream.read, hg, hle]
      have hg' : ({ ifs with rest := ifs.rest.drop n } : ifstream).good = true := by
        simpa [ifstream.good] using hg
      obtain ⟨chunks, h1, h2, h3⟩ := ih { ifs with rest := ifs.rest.drop n }
        (process_bytes result (ifs.rest.take n)) (fed ++ [ifs.rest.take n]) hg' hd
        (by simp only [List.length_drop]; omega)
      refine ⟨ifs.rest.take n :: chunks, ?_, ?_, ?_⟩
      · rw [hread]
        simp only [hg', if_true, h1]
        simp only [process_bytes, ← List.foldl_append, List.take_append_drop,
          List.append_assoc, List.singleton_append]
      · simp only [List.flatten_cons, h2]
        exact List.take_append_drop n ifs.rest
      · intro c hc
        rcases List.mem_cons.mp hc with rfl | hc
        · simp only [List.length_take]; omega
        · exact h3 c hc
    · have hread : ifs.read n = (ifs.rest, ifs.exhausted) := by
        simp [ifstream.read, hg, hle]
      refine ⟨[ifs.rest], ?_, by simp, ?_⟩
      · rw [hread]
        simp only [exhausted_not_good, Bool.false_eq_true, if_false]
        simp [ifstream.exhausted, hd]
      · intro c hc
        rw [List.mem_singleton] at hc
        rw [hc]; omega

theorem openFile_readable (fs : FileSystem) (file : List Char) (node : FileNode)
    (hfile : fs file = some node) (hread : node.readable = true) :
    ifstream.openFile fs file =
      { is_open := true, rest := node.content, device_error := node.device_error,
        eofbit := false, failbit := false, badbit := false } := by
  simp [ifstream.openFile, hfile, hread]

theorem computeCRC32With_readable (n : Nat) (hn : 0 < n) (fs : FileSystem) (file : List Char)
    (node : FileNode) (hfile : fs file = some node) (hread : node.readable = true)
    (hdev : node.device_error = false) :
    computeCRC32With n fs file = .ok (crc32 node.content) ∧
      ∃ chunks, (readLoop n ((ifstream.openFile fs file).rest.length + 1)
          (ifstream.openFile fs file) crcInit []).2.2 = chunks ∧
        chunks.flatten = node.content ∧ ∀ c ∈ chunks, c.length ≤ n := by
  have ho := openFile_readable fs file node hfile hread
  obtain ⟨chunks, h1, h2, h3⟩ := readLoop_spec n hn ((ifstream.openFile fs file).rest.length + 1)
    (ifstream.openFile fs file) crcInit [] (by rw [ho]; rfl) (by rw [ho]; exact hdev)
    (Nat.lt_succ_self _)
  refine ⟨?_, chunks, ?_, ?_, h3⟩
  · unfold computeCRC32With
    simp only [h1]
    simp [ho, ifstream.fail, ifstream.eof, crc32]
  · rw [h1]; simp
  · rw [h2, ho]

/-- The only exceptions `computeCRC32` throws are `not_found`, for a path
that cannot be opened, and `io_error`. -/
theorem computeCRC32_error (fs : FileSystem) (file : List Char) (e : Exception)
    (h : computeCRC32 fs file = .error e) :
    e = .not_found "file not found".toList ∨ e = .io_error "couldn't read file".toList := by
  unfold computeCRC32 computeCRC32With at h
  simp only at h
  split_ifs at h
  · right; simpa using h.symm
  · left; simpa using h.symm

set_option maxRecDepth 100000 in
/-- C9: for a file that opens and is read to its end without a device error,
whatever its content (empty, or a multiple of 4096 bytes long, or any other),
the read loop of `computeCRC32` hands `process_bytes` chunks of at most 4096
bytes whose concatenation is exactly the content, and the function returns
the CRC-32 of the content computed in one piece.  The same holds for every
positive buffer size, so the result does not depend on the chunking, and two
files with the same content get the same result.  The CRC is CRC-32/IEEE: its
value on `123456789` is the check value `0xCBF43926`. -/
theorem computeCRC32_spec (fs : FileSystem) (file : List Char) (node : FileNode)
    (hfile : fs file = some node) (hread : node.readable = true)
    (hdev : node.device_error = false) :
    computeCRC32 fs file = .ok (crc32 node.content) ∧
      (readLoop BUFFER_SIZE ((ifstream.openFile fs file).rest.length + 1)
          (ifstream.openFile fs file) crcInit []).2.2.flatten = node.content ∧
      (∀ c ∈ (readLoop BUFFER_SIZE ((ifstream.openFile fs file).rest.length + 1)
          (ifstream.openFile fs file) crcInit []).2.2, c.length ≤ BUFFER_SIZE) ∧
      (∀ n, 0 < n → computeCRC32With n fs file = .ok (crc32 node.content)) ∧
      (∀ (fs2 : FileSystem) (file2 : List Char) (node2 : FileNode),
        fs2 file2 = some node2 → node2.readable = true → node2.device_error = false →
        node2.content = node.content → computeCRC32 fs2 file2 = computeCRC32 fs file) ∧
      crc32 "123456789".toList = 0xCBF43926 := by
  have hmain := computeCRC32With_readable BUFFER_SIZE (by decide) fs file node hfile hread hdev
  obtain ⟨chunks, hc1, hc2, hc3⟩ := hmain.2
  refine ⟨hmain.1, by rw [hc1]; exact hc2, by rw [hc1]; exact hc3, ?_, ?_, by decide⟩
  · intro n hn
    exact (computeCRC32With_readable n hn fs file node hfile hread hdev).1
  · intro fs2 file2 node2 h1 h2 h3 h4
    have := (computeCRC32With_readable BUFFER_SIZE (by decide) fs2 file2 node2 h1 h2 h3).1
    unfold computeCRC32
    rw [this, hmain.1, h4]

set_option maxRecDepth 100000 in
/-- C9 on the sample file system, at the file `x` with content `123456789`
and at the empty manifest of a second file system. -/
theorem computeCRC32_spec_witness :
    computeCRC32 sampleFs "x".toList = .ok 0xCBF43926 ∧
      computeCRC32 (singleFile "e".toList []) "e".toList = .ok 0 :=
  ⟨(computeCRC32_spec sampleFs "x".toList (regularFile "123456789".toList) (by decide) rfl
      rfl).1.trans (by decide),
   (computeCRC32_spec (singleFile "e".toList []) "e".toList (regularFile []) (by decide) rfl
      rfl).1.trans (by decide)⟩

/-! ## Range of the computed checksum -/

theorem crcShift_lt (r : Nat) (h : r < 4294967296) : crcShift r < 4294967296 := by
  unfold crcShift
  split_ifs
  · exact Nat.xor_lt_two_pow (n := 32) (by omega) (by norm_num)
  · omega

theorem crcByte_lt (r : Nat) (b : Char) (h : r < 4294967296) : crcByte r b < 4294967296 := by
  unfold crcByte
  have h0 : r ^^^ (b.toNat % 256) < 4294967296 :=
    Nat.xor_lt_two_pow (n := 32) h (by omega)
  exact crcShift_lt _ (crcShift_lt _ (crcShift_lt _ (crcShift_lt _ (crcShift_lt _
    (crcShift_lt _ (crcShift_lt _ (crcShift_lt _ h0)))))))

theorem process_bytes_lt (bytes : List Char) :
    ∀ r : Nat, r < 4294967296 → process_bytes r bytes < 4294967296 := by
  induction bytes with
  | nil => intro r h; exact h
  | cons b bs ih => intro r h; exact ih _ (crcByte_lt r b h)

theorem readLoop_lt (n fuel : Nat) :
    ∀ (ifs : ifstream) (result : Nat) (fed : List (List Char)),
      result < 4294967296 → (readLoop n fuel ifs result fed).1 < 4294967296 := by
  induction fuel with
  | zero => intro ifs result fed h; exact h
  | succ k ih =>
    intro ifs result fed h
    unfold readLoop
    simp only
    split_ifs
    · exact ih _ _ _ (process_bytes_lt _ _ h)
    · exact process_bytes_lt _ _ h

/-- Every checksum that `computeCRC32` returns is a 32-bit value. -/
theorem computeCRC32_lt (fs : FileSystem) (file : List Char) (crc : Nat)
    (h : computeCRC32 fs file = .ok crc) : crc < 4294967296 := by
  unfold computeCRC32 computeCRC32With at h
  simp only at h
  split_ifs at h
  simp only [Except.ok.injEq] at h
  rw [← h]
  unfold checksum
  exact Nat.xor_lt_two_pow (n := 32) (readLoop_lt _ _ _ _ _ (by decide)) (by norm_num)

/-- Every record that the constructor of `SFVData` builds has a 32-bit
checksum. -/
theorem SFVData_new_crc_lt (fs : FileSystem) (arg : List Char) (record : SFVData)
    (h : SFVData.new fs arg = .ok record) : record.crc32_ < 4294967296 := by
  unfold SFVData.new at h
  split at h
  · exact absurd h (by simp)
  · split at h
    · exact absurd h (by simp)
    · split_ifs at h
      cases hc : computeCRC32 fs arg with
      | error e => rw [hc] at h; exact absurd h (by simp)
      | ok crc =>
        rw [hc] at h
        simp only [Except.ok.injEq] at h
        rw [← h]
        exact computeCRC32_lt fs arg crc hc

/-! ## The constructor's loop as a fold over the lines read -/

/-- The constructor's loop applies its body to the lines that the calls of
`getline` yield, in order. -/
theorem loop_eq_processLines (fuel : Nat) :
    ∀ (input : ifstream) (ctr : Nat) (self : SFVFile),
      (SFVFile.loop fuel input ctr self).map Prod.fst =
        processLines self ctr (getlines fuel input) := by
  induction fuel with
  | zero => intro input ctr self; rfl
  | succ k ih =>
    intro input ctr self
    cases hgl : getline input LINE_SEPARATOR with
    | mk flag r =>
      obtain ⟨line, input'⟩ := r
      cases flag with
      | false => simp [SFVFile.loop, getlines, hgl, processLines, Except.map]
      | true =>
        simp only [SFVFile.loop, getlines, hgl, processLines]
        cases SFVFile.processLine self (u32 (ctr + 1)) line with
        | error e => rfl
        | ok s => exact ih input' (u32 (ctr + 1)) s

/-! ## The order of the names -/

theorem string_compare_swap (a : List Char) :
    ∀ b : List Char, string_compare b a = - string_compare a b := by
  induction a with
  | nil => intro b; cases b <;> simp [string_compare]
  | cons x xs ih =>
    intro b
    cases b with
    | nil => simp [string_compare]
    | cons y ys =>
      simp only [string_compare]
      split_ifs <;> first | omega | exact ih ys

theorem string_compare_eq_zero (a : List Char) :
    ∀ b : List Char, string_compare a b = 0 → a = b := by
  induction a with
  | nil => intro b h; cases b <;> simp_all [string_compare]
  | cons x xs ih =>
    intro b h
    cases b with
    | nil => simp [string_compare] at h
    | cons y ys =>
      simp only [string_compare] at h
      split_ifs at h with h1 h2
      · omega
      · have hxy : x = y := char_eq_of_toNat_eq (by omega)
        rw [hxy, ih ys h]

theorem string_compare_range (a : List Char) :
    ∀ b : List Char, -1 ≤ string_compare a b ∧ string_compare a b ≤ 1 := by
  induction a with
  | nil => intro b; cases b <;> simp [string_compare]
  | cons x xs ih =>
    intro b
    cases b with
    | nil => simp [string_compare]
    | cons y ys =>
      simp only [string_compare]
      split_ifs <;> first | omega | exact ih ys

theorem string_compare_trans (a : List Char) :
    ∀ b c : List Char, string_compare a b ≤ 0 → string_compare b c ≤ 0 →
      string_compare a c ≤ 0 := by
  induction a with
  | nil => intro b c _ _; cases c <;> simp [string_compare]
  | cons x xs ih =>
    intro b c h1 h2
    cases b with
    | nil => simp [string_compare] at h1
    | cons y ys =>
      cases c with
      | nil => simp [string_compare] at h2
      | cons z zs =>
        simp only [string_compare] at h1 h2 ⊢
        split_ifs at h1 h2 ⊢ <;> first | omega | exact ih ys zs h1 h2

/-- The order that `std::string::compare` decides is the lexicographic order
of the byte values. -/
theorem string_compare_lt_iff_lex (a : List Char) :
    ∀ b : List Char,
      string_compare a b < 0 ↔ List.Lex (fun x y : Char => x.toNat < y.toNat) a b := by
  induction a with
  | nil =>
    intro b
    cases b with
    | nil => simp [string_compare]
    | cons y ys => simp [string_compare, List.Lex.nil]
  | cons x xs ih =>
    intro b
    cases b with
    | nil => simp [string_compare]
    | cons y ys =>
      simp only [string_compare]
      constructor
      · intro h
        split_ifs at h with h1 h2
        · exact List.Lex.rel h1
        · omega
        · have hxy : x = y := char_eq_of_toNat_eq (by omega)
          subst hxy
          exact List.Lex.cons ((ih ys).mp h)
      · intro h
        cases h with
        | rel hr => simp [hr]
        | cons ht =>
          have := (ih ys).mpr ht
          simp [this]

/-! ## Generate mode: collection and order -/

theorem sortRel_iff (a b : SFVData) : sortRel a b ↔ string_compare a.name_ b.name_ ≤ 0 := by
  unfold sortRel SFVData.lt
  rw [decide_eq_false_iff_not, string_compare_swap a.name_ b.name_]
  omega

theorem sortRel_total : IsTotal SFVData sortRel :=
  ⟨fun a b => by
    rw [sortRel_iff, sortRel_iff, string_compare_swap a.name_ b.name_]
    omega⟩

theorem sortRel_trans : IsTrans SFVData sortRel :=
  ⟨fun a b c h1 h2 => by
    rw [sortRel_iff] at *
    exact string_compare_trans _ _ _ h1 h2⟩

theorem nameBelow_antisymm : IsAntisymm SFVData nameBelow :=
  ⟨fun a b h1 h2 => by
    unfold nameBelow at *
    rw [string_compare_swap a.name_ b.name_] at h2
    omega⟩

theorem sort_perm (data : List SFVData) : (sort data).Perm data :=
  List.perm_insertionSort sortRel data

/-- Sorting records with pairwise different names puts the names in strictly
ascending order. -/
theorem sort_strict (data : List SFVData) (hnd : (data.map SFVData.name_).Nodup) :
    (sort data).Pairwise nameBelow := by
  haveI := sortRel_total
  haveI := sortRel_trans
  have hs : (sort data).Pairwise sortRel := List.sorted_insertionSort sortRel data
  have hnd' : ((sort data).map SFVData.name_).Nodup :=
    ((sort_perm data).map SFVData.name_).nodup_iff.mpr hnd
  have hne : (sort data).Pairwise (fun a b => a.name_ ≠ b.name_) := by
    rw [List.Nodup, List.pairwise_map] at hnd'
    exact hnd'
  refine (hs.and hne).imp ?_
  intro a b h
  have h1 := (sortRel_iff a b).mp h.1
  have h2 : string_compare a.name_ b.name_ ≠ 0 := fun h0 =>
    h.2 (string_compare_eq_zero _ _ h0)
  unfold nameBelow
  omega

theorem sort_eq_of_perm (d1 d2 : List SFVData) (hp : d1.Perm d2)
    (hnd : (d2.map SFVData.name_).Nodup) : sort d1 = sort d2 := by
  have hnd1 : (d1.map SFVData.name_).Nodup := (hp.map SFVData.name_).nodup_iff.mpr hnd
  haveI := nameBelow_antisymm
  exact List.eq_of_perm_of_sorted (((sort_perm d1).trans hp).trans (sort_perm d2).symm)
    (sort_strict d1 hnd1) (sort_strict d2 hnd)

theorem SFVData_new_name (fs : FileSystem) (arg : List Char) (record : SFVData)
    (h : SFVData.new fs arg = .ok record) : record.name_ = filename arg := by
  unfold SFVData.new at h
  split at h
  · exact absurd h (by simp)
  · split at h
    · exact absurd h (by simp)
    · split_ifs at h
      split at h
      · exact absurd h (by simp)
      · simp only [Except.ok.injEq] at h
        rw [← h]

theorem collect_inv (fs : FileSystem) (st : GenState) (arg : List Char) (h : collectInv st) :
    collectInv (collect fs st arg) := by
  unfold collect
  cases herr : is_regular_file_error fs arg with
  | some what => exact h
  | none =>
  simp only
  by_cases h1 : (!is_regular_file fs arg) = true
  · simp only [h1, if_true]
    exact h
  simp only [h1, if_false]
  by_cases h2 : filename arg ∈ st.files
  · simp only [h2, if_true]
    exact h
  · simp only [h2, if_false]
    have hfiles : ∀ d ∈ st.data, d.name_ ∈ filename arg :: st.files :=
      fun d hd => List.mem_cons_of_mem _ (h.2 d hd)
    cases hrec : SFVData.new fs arg with
    | error e => cases e <;> exact ⟨h.1, hfiles⟩
    | ok record =>
      have hname := SFVData_new_name fs arg record hrec
      refine ⟨?_, ?_⟩
      · show ((st.data ++ [record]).map SFVData.name_).Nodup
        simp only [List.map_append, List.map_cons, List.map_nil]
        rw [List.nodup_append]
        refine ⟨h.1, by simp, ?_⟩
        intro x hx hx'
        simp only [List.mem_singleton] at hx'
        rw [List.mem_map] at hx
        obtain ⟨d, hd, hdx⟩ := hx
        have hmem := h.2 d hd
        rw [hdx, hx', hname] at hmem
        exact h2 hmem
      · intro d hd
        have hd' : d ∈ st.data ++ [record] := hd
        simp only [List.mem_append, List.mem_singleton] at hd'
        rcases hd' with hd' | rfl
        · exact hfiles d hd'
        · rw [hname]; exact List.mem_cons_self _ _

theorem foldl_collect_inv (fs : FileSystem) (args : List (List Char)) :
    ∀ st : GenState, collectInv st → collectInv (args.foldl (collect fs) st) := by
  induction args with
  | nil => intro st h; exact h
  | cons a as ih => intro st h; exact ih _ (collect_inv fs st a h)

theorem collectAll_nodup (fs : FileSystem) (args : List (List Char)) :
    ((collectAll fs args).data.map SFVData.name_).Nodup :=
  (foldl_collect_inv fs args _ ⟨by simp, by simp⟩).1

/-- C10: whenever generate mode collects at least one record, what it writes
to standard output is the rendering of the collected records sorted by
`operator<`; the sorted records are the collected ones, their names are in
strictly ascending order, which is the lexicographic order of the byte
values; the table lines and the checksum lines are written from the same
sorted list, each with the name of its record; and two argument lists that
make the loop collect the same records, in whatever order, give the same
output. -/
theorem generate_sorted (tt : TimeText) (fs : FileSystem) (args : List (List Char))
    (hne : (collectAll fs args).data ≠ []) :
    (mainGenerate tt fs args).2.cout = render tt (sort (collectAll fs args).data) ∧
      (sort (collectAll fs args).data).Perm (collectAll fs args).data ∧
      (sort (collectAll fs args).data).Pairwise
        (fun a b => string_compare a.getName b.getName < 0) ∧
      (∀ a b : List Char,
        string_compare a b < 0 ↔ List.Lex (fun x y : Char => x.toNat < y.toNat) a b) ∧
      (∀ data : List SFVData, render tt data =
        headerText tt ++
          (data.map (fun d =>
            [';', ' '] ++ List.replicate (maxSizeWidth data - d.getFormattedSize.length) ' ' ++
              d.getFormattedSize ++ [' '] ++ d.getFormattedTimestamp tt ++ [' '] ++
              d.getName ++ LINE_SEPARATOR)).flatten ++
          [';'] ++ LINE_SEPARATOR ++
          (data.map (fun d =>
            d.getName ++ [' '] ++ d.getFormattedChecksum ++ LINE_SEPARATOR)).flatten) ∧
      (∀ args2 : List (List Char),
        (collectAll fs args2).data.Perm (collectAll fs args).data →
        (mainGenerate tt fs args2).2.cout = (mainGenerate tt fs args).2.cout) := by
  have hcout : ∀ a : List (List Char), (collectAll fs a).data ≠ [] →
      (mainGenerate tt fs a).2.cout = render tt (sort (collectAll fs a).data) := by
    intro a ha
    unfold mainGenerate
    have : (collectAll fs a).data.isEmpty = false := by
      cases h : (collectAll fs a).data with
      | nil => exact absurd h ha
      | cons x xs => rfl
    simp [this]
  refine ⟨hcout args hne, sort_perm _, sort_strict _ (collectAll_nodup fs args),
    fun a b => string_compare_lt_iff_lex a b, ?_, ?_⟩
  · intro data
    have h1 : ∀ w, tableLine tt w = fun d =>
        [';', ' '] ++ List.replicate (w - d.getFormattedSize.length) ' ' ++
          d.getFormattedSize ++ [' '] ++ d.getFormattedTimestamp tt ++ [' '] ++
          d.getName ++ LINE_SEPARATOR := by
      intro w; funext d; simp [tableLine, COMMENT]
    have h2 : dataLine = fun d =>
        d.getName ++ [' '] ++ d.getFormattedChecksum ++ LINE_SEPARATOR := by
      funext d; simp [dataLine, SEPARATOR]
    unfold render
    rw [h1, h2]
    simp [COMMENT]
  · intro args2 hp
    have hne2 : (collectAll fs args2).data ≠ [] := by
      intro h0
      rw [h0] at hp
      exact hne (List.Perm.nil_eq hp).symm
    rw [hcout args hne, hcout args2 hne2,
      sort_eq_of_perm _ _ hp (collectAll_nodup fs args)]

set_option maxRecDepth 1000000 in
/-- C10 on the sample file system with the arguments `y`, `gone`, `x`: the
names come out as `x`, `y`. -/
theorem generate_sorted_witness :
    (collectAll sampleFs ["y".toList, "gone".toList, "x".toList]).data ≠ [] ∧
    (mainGenerate sampleTime sampleFs ["y".toList, "gone".toList, "x".toList]).2.cout =
      render sampleTime (sort (collectAll sampleFs
        ["y".toList, "gone".toList, "x".toList]).data) ∧
    (sort (collectAll sampleFs ["y".toList, "gone".toList, "x".toList]).data).map
      SFVData.getName = ["x".toList, "y".toList] :=
  ⟨by decide,
   (generate_sorted sampleTime sampleFs ["y".toList, "gone".toList, "x".toList]
     (by decide)).1,
   by decide⟩

/-! ## The loop body by the kind of the line -/

/-- What the pattern accepts always converts: the first group is eight
hexadecimal digits, `std::stoul` returns their value, and the value is below
`2^32`. -/
theorem regex_match_stoul {s : List Char} {m : List (List Char)} (h : regex_match s = some m) :
    m.length = 3 ∧ (m.getD 1 []).length = 8 ∧ (∀ c ∈ m.getD 1 [], isHexDigit c = true) ∧
      stoul (m.getD 1 []).reverse = .ok (hexValue (m.getD 1 []).reverse) ∧
      hexValue (m.getD 1 []).reverse < 4294967296 := by
  obtain ⟨hm, h1, h2, -, -⟩ := regex_match_some h
  subst hm
  have hlen : (s.take 8).reverse.length = 8 := by rw [List.length_reverse]; exact h1
  have hhex : ∀ c ∈ (s.take 8).reverse, isHexDigit c = true := by
    intro c hc
    exact h2 c (List.mem_reverse.mp hc)
  have hne : (s.take 8).reverse ≠ [] := by
    intro h0
    rw [h0] at hlen
    simp at hlen
  have hv : hexValue (s.take 8).reverse < 4294967296 := by
    have := hexValue_lt (s.take 8).reverse
    rw [hlen] at this
    exact this
  have e1 : [s, s.take 8, (s.drop 8).tail].getD 1 [] = s.take 8 := rfl
  rw [e1]
  exact ⟨rfl, h1, h2, stoul_hexDigits _ hne hhex (by omega), hv⟩

theorem processLine_eq_lineStep (self : SFVFile) (ctr : Nat) (line : List Char) :
    SFVFile.processLine self ctr line = .ok (lineStep self ctr line) := by
  unfold SFVFile.processLine lineStep entryOf isIgnoredLine isDataCandidate
  by_cases h1 : line.isEmpty = true
  · simp [h1]
  · by_cases h2 : line.head? = some ';'
    · simp [h1, h2]
    · simp only [h1, h2, Bool.false_eq_true, if_false]
      cases hm : regex_match line.reverse with
      | none => simp [h2]
      | some m =>
        obtain ⟨hl, -, -, hst, hv⟩ := regex_match_stoul hm
        simp only [hl, ne_eq, not_true_eq_false, if_false, hst]
        simp only [u32, Nat.mod_eq_of_lt hv]

theorem processLines_eq (lines : List (List Char)) :
    ∀ (self : SFVFile) (ctr : Nat),
      processLines self ctr lines =
        .ok { ignored_lines_ := self.ignored_lines_ ++ ignoredNumbers ctr lines,
              data_ := self.data_ ++ lines.filterMap entryOf } := by
  induction lines with
  | nil => intro self ctr; simp [processLines, ignoredNumbers]
  | cons l ls ih =>
    intro self ctr
    simp only [processLines, processLine_eq_lineStep, ih, ignoredNumbers, List.filterMap_cons]
    unfold lineStep
    cases he : entryOf l with
    | some e =>
      have hi : isIgnoredLine l = false := by
        unfold entryOf at he
        unfold isIgnoredLine isDataCandidate
        split_ifs at he with h1 h2
        cases hm : regex_match l.reverse with
        | none => rw [hm] at he; simp at he
        | some m => simp
      simp [hi]
    | none =>
      by_cases hi : isIgnoredLine l = true
      · simp [hi]
      · simp [hi]

/-! ## The constructor on a readable file -/

theorem getline_streamInv (input : ifstream) (h : streamInv input) :
    streamInv (getline input LINE_SEPARATOR).2.2 := by
  unfold getline
  by_cases hg : input.good = true
  · simp only [hg, Bool.not_true, Bool.false_eq_true, if_false, LINE_SEPARATOR,
      List.isEmpty_cons]
    split
    · exact ⟨h.1, Or.inl (by simpa [ifstream.good] using hg)⟩
    · refine ⟨by simp [ifstream.exhausted, h.1], Or.inr ?_⟩
      simp [ifstream.exhausted, h.1]
  · simp only [Bool.not_eq_true] at hg
    simp only [hg, Bool.not_false, if_true]
    exact h

theorem loop_streamInv (fuel : Nat) :
    ∀ (input : ifstream) (ctr : Nat) (self s : SFVFile) (input' : ifstream),
      SFVFile.loop fuel input ctr self = .ok (s, input') → streamInv input →
      streamInv input' := by
  induction fuel with
  | zero =>
    intro input ctr self s input' h hi
    simp only [SFVFile.loop, Except.ok.injEq, Prod.mk.injEq] at h
    rw [← h.2]; exact hi
  | succ k ih =>
    intro input ctr self s input' h hi
    have hinv := getline_streamInv input hi
    cases hgl : getline input LINE_SEPARATOR with
    | mk flag r =>
      obtain ⟨line, input2⟩ := r
      rw [hgl] at hinv
      cases flag with
      | false =>
        simp only [SFVFile.loop, hgl, Except.ok.injEq, Prod.mk.injEq] at h
        rw [← h.2]; exact hinv
      | true =>
        simp only [SFVFile.loop, hgl, processLine_eq_lineStep] at h
        exact ih _ _ _ _ _ h hinv

theorem openFile_eq_streamOf (fs : FileSystem) (file : List Char) (node : FileNode)
    (hfile : fs file = some node) (hread : node.readable = true)
    (hdev : node.device_error = false) :
    ifstream.openFile fs file = streamOf node.content := by
  rw [openFile_readable fs file node hfile hread, hdev]
  rfl

/-- On a regular file that opens and is read to its end the constructor
returns the result of the loop body applied to the lines read. -/
theorem new_readable (fs : FileSystem) (file : List Char) (node : FileNode)
    (hfile : fs file = some node) (hreg : node.regular = true) (hread : node.readable = true)
    (hdev : node.device_error = false) :
    SFVFile.new fs file =
      .ok { ignored_lines_ :=
              ignoredNumbers 0 (getlines (node.content.length + 2) (streamOf node.content)),
            data_ :=
              (getlines (node.content.length + 2) (streamOf node.content)).filterMap entryOf } := by
  have ho := openFile_eq_streamOf fs file node hfile hread hdev
  have hfold := loop_eq_processLines (node.content.length + 2) (streamOf node.content) 0
    { ignored_lines_ := [], data_ := [] }
  rw [processLines_eq] at hfold
  unfold SFVFile.new
  simp only [is_regular_file_error_of_regular fs file node hfile hreg, is_regular_file, hfile,
    hreg, Bool.not_true, Bool.false_eq_true, if_false, ho]
  have hrest : (streamOf node.content).rest = node.content := rfl
  rw [hrest]
  cases hl : SFVFile.loop (node.content.length + 2) (streamOf node.content) 0
      { ignored_lines_ := [], data_ := [] } with
  | error e => rw [hl] at hfold; simp [Except.map] at hfold
  | ok r =>
    obtain ⟨s, input'⟩ := r
    rw [hl] at hfold
    simp only [Except.map, Except.ok.injEq, List.nil_append] at hfold
    have hinv := loop_streamInv _ _ _ _ _ _ hl
      (⟨rfl, Or.inl rfl⟩ : streamInv (streamOf node.content))
    have hchk : (input'.fail && !input'.eof) = false := by
      rcases hinv.2 with hg | he
      · have : input'.fail = false := by
          simp only [ifstream.good, Bool.and_eq_true, Bool.not_eq_true'] at hg
          simp [ifstream.fail, hg.1.2, hg.2]
        simp [this]
      · simp [ifstream.eof, he]
    simp only [hchk, Bool.false_eq_true, if_false, hfold]

/-! ## The numbers of the ignored lines -/

theorem u32_add_u32 (a b : Nat) : u32 (u32 a + b) = u32 (a + b) := by
  unfold u32
  omega

theorem ignoredNumbers_eq (lines : List (List Char)) :
    ∀ ctr : Nat, ignoredNumbers ctr lines =
      ((List.range lines.length).filter (fun i => isIgnoredLine (lines.getD i []))).map
        (fun i => u32 (ctr + i + 1)) := by
  induction lines with
  | nil => intro ctr; simp [ignoredNumbers]
  | cons l ls ih =>
    intro ctr
    simp only [ignoredNumbers, ih, List.length_cons, List.range_succ_eq_map, List.filter_cons,
      List.filter_map, List.map_map]
    have hf : (fun i => isIgnoredLine ((l :: ls).getD i [])) ∘ Nat.succ =
        fun i => isIgnoredLine (ls.getD i []) := by
      funext i; simp
    have hm : (fun i => u32 (ctr + i + 1)) ∘ Nat.succ =
        fun i => u32 (u32 (ctr + 1) + i + 1) := by
      funext i
      simp only [Function.comp, Nat.succ_eq_add_one]
      rw [Nat.add_assoc (u32 (ctr + 1)), u32_add_u32]
      congr 1
      omega
    have h0 : (l :: ls).getD 0 [] = l := rfl
    rw [h0]
    by_cases hi : isIgnoredLine l = true
    · simp only [hi, if_true, List.map_cons, List.map_map, hm, List.singleton_append,
        Nat.add_zero, hf]
    · simp only [hi, Bool.false_eq_true, if_false, List.map_map, hm, List.nil_append, hf]

theorem ignoredNumbers_eq_positions (lines : List (List Char))
    (h : lines.length < 4294967296) : ignoredNumbers 0 lines = ignoredPositions lines := by
  rw [ignoredNumbers_eq]
  unfold ignoredPositions
  apply List.map_congr_left
  intro i hi
  have : i < lines.length := by
    have := (List.mem_filter.mp hi).1
    exact List.mem_range.mp this
  unfold u32
  simp only [Nat.zero_add]
  exact Nat.mod_eq_of_lt (by omega)

theorem ignoredPositions_increasing (lines : List (List Char)) :
    (ignoredPositions lines).Pairwise (fun a b => a < b) := by
  unfold ignoredPositions
  apply List.Pairwise.map (R := fun a b => a < b)
  · intro a b h; omega
  · exact (List.pairwise_lt_range _).filter _

/-! ## Order and numbering of the parsed lines -/

theorem ignoredPositions_spec (lines : List (List Char)) :
    ∀ k ∈ ignoredPositions lines,
      1 ≤ k ∧ k ≤ lines.length ∧ isIgnoredLine (lines.getD (k - 1) []) = true := by
  intro k hk
  unfold ignoredPositions at hk
  obtain ⟨i, hi, rfl⟩ := List.mem_map.mp hk
  obtain ⟨h1, h2⟩ := List.mem_filter.mp hi
  have := List.mem_range.mp h1
  refine ⟨by omega, by omega, ?_⟩
  simpa using h2

theorem new_linesOf (fs : FileSystem) (file : List Char) (node : FileNode)
    (hfile : fs file = some node) (hreg : node.regular = true) (hread : node.readable = true)
    (hdev : node.device_error = false) :
    SFVFile.new fs file =
      .ok { ignored_lines_ := ignoredNumbers 0 (linesOf node.content),
            data_ := (linesOf node.content).filterMap entryOf } :=
  new_readable fs file node hfile hreg hread hdev

/-- C16: for a manifest that is a regular file read to its end, the entries
are the entries of the lines that have one, in the order of the lines (no
sorting), and the ignored-lines list holds, in the order of the lines, the
number of every line that is neither empty nor a comment and does not match:
its 1-based position among all the lines read, reduced to 32 bits.  For a
manifest of fewer than `2^32` lines these numbers are the positions
themselves, and the list of positions is strictly increasing. -/
theorem parse_order (fs : FileSystem) (file : List Char) (node : FileNode)
    (hfile : fs file = some node) (hreg : node.regular = true) (hread : node.readable = true)
    (hdev : node.device_error = false) :
    SFVFile.new fs file =
        .ok { ignored_lines_ :=
                ((List.range (linesOf node.content).length).filter
                  (fun i => isIgnoredLine ((linesOf node.content).getD i []))).map
                  (fun i => u32 (i + 1)),
              data_ := (linesOf node.content).filterMap entryOf } ∧
      ((linesOf node.content).length < 4294967296 →
        SFVFile.new fs file =
          .ok { ignored_lines_ := ignoredPositions (linesOf node.content),
                data_ := (linesOf node.content).filterMap entryOf }) ∧
      (ignoredPositions (linesOf node.content)).Pairwise (fun a b => a < b) ∧
      (∀ k ∈ ignoredPositions (linesOf node.content),
        1 ≤ k ∧ k ≤ (linesOf node.content).length ∧
          isIgnoredLine ((linesOf node.content).getD (k - 1) []) = true) := by
  have hnew := new_linesOf fs file node hfile hreg hread hdev
  refine ⟨?_, ?_, ignoredPositions_increasing _, ignoredPositions_spec _⟩
  · rw [hnew, ignoredNumbers_eq]
    simp only [Nat.zero_add]
  · intro hlt
    rw [hnew, ignoredNumbers_eq_positions _ hlt]

/-- C16 on the sample manifest: the entries `b` and `a` keep the order of
their lines, and the malformed lines are the fourth and the seventh of all
lines. -/
theorem parse_order_witness :
    SFVFile.new (singleFile "m.sfv".toList sampleManifest) "m.sfv".toList =
      .ok { ignored_lines_ := [4, 7], data_ := [("b".toList, 2), ("a".toList, 1)] } :=
  ((parse_order (singleFile "m.sfv".toList sampleManifest) "m.sfv".toList
      (regularFile sampleManifest) (by decide) rfl rfl rfl).2.1 (by decide)).trans (by decide)

/-! ## Every line is accounted for once -/

theorem entryOf_isSome_iff (line : List Char) :
    (entryOf line).isSome = (isDataCandidate line && (regex_match line.reverse).isSome) := by
  unfold entryOf isDataCandidate
  by_cases h1 : line.isEmpty = true
  · simp [h1]
  · by_cases h2 : line.head? = some ';'
    · simp [h1, h2]
    · cases hm : regex_match line.reverse <;> simp [h1, h2]

theorem length_entries_ignored (lines : List (List Char)) :
    ∀ ctr : Nat, (lines.filterMap entryOf).length + (ignoredNumbers ctr lines).length =
      (lines.filter isDataCandidate).length := by
  induction lines with
  | nil => intro ctr; rfl
  | cons l ls ih =>
    intro ctr
    have hs := entryOf_isSome_iff l
    have := ih (u32 (ctr + 1))
    simp only [List.filterMap_cons, ignoredNumbers, List.filter_cons, List.length_append]
    unfold isIgnoredLine
    cases he : entryOf l with
    | none =>
      rw [he] at hs
      cases hc : isDataCandidate l with
      | false => simp [hc]; omega
      | true =>
        rw [hc] at hs
        cases hm : regex_match l.reverse with
        | none => simp; omega
        | some m => rw [hm] at hs; simp at hs
    | some e =>
      rw [he] at hs
      cases hc : isDataCandidate l with
      | false => rw [hc] at hs; simp at hs
      | true =>
        rw [hc] at hs
        cases hm : regex_match l.reverse with
        | none => rw [hm] at hs; simp at hs
        | some m => simp; omega

theorem isDataCandidate_iff (line : List Char) :
    isDataCandidate line = true ↔ line ≠ [] ∧ line.head? ≠ some ';' := by
  unfold isDataCandidate
  cases line with
  | nil => simp
  | cons a t => simp

theorem processLine_cases (self : SFVFile) (ctr : Nat) (line : List Char) :
    (isDataCandidate line = false → SFVFile.processLine self ctr line = .ok self) ∧
      (isDataCandidate line = true →
        (∃ e, entryOf line = some e ∧ isIgnoredLine line = false ∧
          SFVFile.processLine self ctr line =
            .ok { ignored_lines_ := self.ignored_lines_, data_ := self.data_ ++ [e] }) ∨
        (entryOf line = none ∧ isIgnoredLine line = true ∧
          SFVFile.processLine self ctr line =
            .ok { ignored_lines_ := self.ignored_lines_ ++ [ctr], data_ := self.data_ })) := by
  have hs := entryOf_isSome_iff line
  rw [processLine_eq_lineStep]
  unfold lineStep isIgnoredLine
  constructor
  · intro hc
    rw [hc] at hs
    cases he : entryOf line with
    | some e => rw [he] at hs; simp at hs
    | none => simp [hc]
  · intro hc
    rw [hc] at hs
    cases he : entryOf line with
    | some e =>
      rw [he] at hs
      cases hm : regex_match line.reverse with
      | none => rw [hm] at hs; simp at hs
      | some m => left; exact ⟨e, rfl, by simp [hc], rfl⟩
    | none =>
      rw [he] at hs
      cases hm : regex_match line.reverse with
      | none => right; simp [hc]
      | some m => rw [hm] at hs; simp at hs

/-- C18: a line that is empty or begins with `;` leaves both vectors as they
are; every other line adds exactly one element to exactly one of them, an
entry when the pattern accepts it and its line number when not.  So for a
manifest read to its end the entries and the ignored lines together are as
many as the lines that are neither empty nor comments.  The pattern accepts
only a checksum field of eight hexadecimal digits, on which `std::stoul`
always succeeds with a value below `2^32` that the cast to 32 bits keeps, so
neither `invalid_argument` nor any other exception leaves the loop body. -/
theorem line_accounting (fs : FileSystem) (file : List Char) (node : FileNode)
    (hfile : fs file = some node) (hreg : node.regular = true) (hread : node.readable = true)
    (hdev : node.device_error = false) :
    (∀ (self : SFVFile) (ctr : Nat) (line : List Char),
      (isDataCandidate line = true ↔ line ≠ [] ∧ line.head? ≠ some ';') ∧
      (isDataCandidate line = false → SFVFile.processLine self ctr line = .ok self) ∧
      (isDataCandidate line = true →
        (∃ e, entryOf line = some e ∧ isIgnoredLine line = false ∧
          SFVFile.processLine self ctr line =
            .ok { ignored_lines_ := self.ignored_lines_, data_ := self.data_ ++ [e] }) ∨
        (entryOf line = none ∧ isIgnoredLine line = true ∧
          SFVFile.processLine self ctr line =
            .ok { ignored_lines_ := self.ignored_lines_ ++ [ctr], data_ := self.data_ }))) ∧
    (∃ sfv, SFVFile.new fs file = .ok sfv ∧
      sfv.data_.length + sfv.ignored_lines_.length =
        ((linesOf node.content).filter isDataCandidate).length) ∧
    (∀ (s : List Char) (m : List (List Char)), regex_match s = some m →
      m.length = 3 ∧ (m.getD 1 []).length = 8 ∧ (∀ c ∈ m.getD 1 [], isHexDigit c = true) ∧
      ∃ v, stoul (m.getD 1 []).reverse = .ok v ∧ v < 4294967296 ∧ u32 v = v) := by
  refine ⟨?_, ?_, ?_⟩
  · intro self ctr line
    exact ⟨isDataCandidate_iff line, processLine_cases self ctr line⟩
  · exact ⟨_, new_linesOf fs file node hfile hreg hread hdev,
      length_entries_ignored _ 0⟩
  · intro s m hm
    obtain ⟨h1, h2, h3, h4, h5⟩ := regex_match_stoul hm
    exact ⟨h1, h2, h3, _, h4, h5, Nat.mod_eq_of_lt h5⟩

/-- C18 on the sample manifest, whose eight lines hold four that are neither
empty nor comments: two entries and two ignored lines. -/
theorem line_accounting_witness :
    ((linesOf sampleManifest).filter isDataCandidate).length = 4 ∧
    ∃ sfv, SFVFile.new (singleFile "m.sfv".toList sampleManifest) "m.sfv".toList = .ok sfv ∧
      sfv.data_.length + sfv.ignored_lines_.length =
        ((linesOf sampleManifest).filter isDataCandidate).length :=
  ⟨by decide,
   (line_accounting (singleFile "m.sfv".toList sampleManifest) "m.sfv".toList
      (regularFile sampleManifest) (by decide) rfl rfl rfl).2.1⟩

/-! ## The line reader on contents in which CR only occurs before LF -/

theorem splitAtCRLF_ne_nil (content : List Char) : splitAtCRLF content ≠ [] := by
  induction content using splitAtCRLF.induct with
  | case1 => simp [splitAtCRLF]
  | case2 c => simp [splitAtCRLF]
  | case3 c d rest h ih => simp [splitAtCRLF, h]
  | case4 c d rest h hs ih => exact absurd hs ih
  | case5 c d rest h piece pieces hs ih => simp [splitAtCRLF, h, hs]

theorem getlineLoop_plain_end (seg output : List Char) (h : ∀ c ∈ seg, plainByte c = true) :
    getlineLoop LINE_SEPARATOR seg 0 [] output = (output ++ seg, none) := by
  induction seg generalizing output with
  | nil => simp [getlineLoop, LINE_SEPARATOR]
  | cons c t ih =>
    have hc := plainByte_spec (h c (List.mem_cons_self _ _))
    have ht := ih (output ++ [c]) (fun d hd => h d (List.mem_cons_of_mem _ hd))
    have hne : ¬ ('\r' = c) := fun h0 => hc.2 h0.symm
    simp only [getlineLoop, LINE_SEPARATOR, List.length_cons, List.length_nil,
      List.get?_cons_zero, Option.some.injEq, hc.1, hne] at ht ⊢
    simpa using ht

/-- A content in which CR only occurs before LF and 0xFF does not occur is
either one piece free of CR, or such a piece, CR LF, and a content of the
same kind; the specification cuts it accordingly. -/
theorem crlf_decompose (content : List Char) :
    everyCRBeforeLF content = true → (∀ c ∈ content, c ≠ '\xff') →
    ∃ seg, (∀ c ∈ seg, plainByte c = true) ∧
      ((content = seg ∧ splitAtCRLF content = [seg]) ∨
       ∃ rest, content = seg ++ LINE_SEPARATOR ++ rest ∧ everyCRBeforeLF rest = true ∧
         (∀ c ∈ rest, c ≠ '\xff') ∧ splitAtCRLF content = seg :: splitAtCRLF rest) := by
  induction content using splitAtCRLF.induct with
  | case1 => intro _ _; exact ⟨[], by simp, Or.inl ⟨rfl, by simp [splitAtCRLF]⟩⟩
  | case2 c =>
    intro h1 h2
    refine ⟨[c], ?_, Or.inl ⟨rfl, by simp [splitAtCRLF]⟩⟩
    intro x hx
    rw [List.mem_singleton] at hx
    subst hx
    have := h2 x (List.mem_singleton_self _)
    simp only [everyCRBeforeLF, bne_iff_ne, ne_eq] at h1
    simp [plainByte, h1, this]
  | case3 c d rest h ih =>
    intro h1 h2
    obtain ⟨rfl, rfl⟩ := h
    refine ⟨[], by simp, Or.inr ⟨rest, by simp [LINE_SEPARATOR], ?_, ?_, by simp [splitAtCRLF]⟩⟩
    · simpa [everyCRBeforeLF] using h1
    · intro x hx
      exact h2 x (List.mem_cons_of_mem _ (List.mem_cons_of_mem _ hx))
  | case4 c d rest h hs ih => exact absurd hs (splitAtCRLF_ne_nil _)
  | case5 c d rest h piece pieces hs ih =>
    intro h1 h2
    have hc : c ≠ '\r' := by
      intro h0
      subst h0
      simp only [everyCRBeforeLF, if_true, Bool.and_eq_true, beq_iff_eq] at h1
      exact h ⟨rfl, h1.1⟩
    have h1' : everyCRBeforeLF (d :: rest) = true := by
      simpa [everyCRBeforeLF, hc] using h1
    have hcp : plainByte c = true := by
      simp [plainByte, hc, h2 c (List.mem_cons_self _ _)]
    obtain ⟨seg, hseg, halt⟩ := ih h1' (fun x hx => h2 x (List.mem_cons_of_mem _ hx))
    have hseg' : ∀ x ∈ c :: seg, plainByte x = true := by
      intro x hx
      rcases List.mem_cons.mp hx with rfl | hx
      · exact hcp
      · exact hseg x hx
    refine ⟨c :: seg, hseg', ?_⟩
    rcases halt with ⟨e1, e2⟩ | ⟨rest', e1, e2, e3, e4⟩
    · left
      rw [hs] at e2
      simp only [List.cons.injEq] at e2
      refine ⟨by rw [e1], ?_⟩
      simp [splitAtCRLF, h, hs, e2.1, e2.2]
    · right
      rw [hs] at e4
      simp only [List.cons.injEq] at e4
      refine ⟨rest', by rw [e1]; simp, e2, e3, ?_⟩
      simp [splitAtCRLF, h, hs, e4.1, e4.2]

theorem getlines_eq_splitAtCRLF (n : Nat) :
    ∀ (content : List Char) (fuel : Nat) (input : ifstream),
      content.length ≤ n → input.good = true → input.rest = content →
      everyCRBeforeLF content = true → (∀ c ∈ content, c ≠ '\xff') →
      content.length + 2 ≤ fuel →
      getlines fuel input = splitAtCRLF content ∧
        ∀ l ∈ splitAtCRLF content, ∀ c ∈ l, plainByte c = true := by
  induction n with
  | zero =>
    intro content fuel input hn hg hr _ _ hf
    have hc : content = [] := List.length_eq_zero.mp (by omega)
    subst hc
    obtain ⟨k, rfl⟩ : ∃ k, fuel = k + 1 + 1 := ⟨fuel - 2, by simp at hf; omega⟩
    refine ⟨?_, by simp [splitAtCRLF]⟩
    simp only [getlines, getline_at_end input hg hr,
      getline_not_good _ (exhausted_not_good input)]
    simp [splitAtCRLF]
  | succ m ih =>
    intro content fuel input hn hg hr h1 h2 hf
    obtain ⟨k, rfl⟩ : ∃ k, fuel = k + 1 + 1 := ⟨fuel - 2, by omega⟩
    obtain ⟨seg, hseg, halt⟩ := crlf_decompose content h1 h2
    rcases halt with ⟨e1, e2⟩ | ⟨rest, e1, e2, e3, e4⟩
    · have hgl : getline input LINE_SEPARATOR = (true, seg, input.exhausted) := by
        unfold getline
        rw [hr, e1, getlineLoop_plain_end seg [] hseg]
        simp [hg, LINE_SEPARATOR]
      refine ⟨?_, ?_⟩
      · simp only [getlines, hgl, getline_not_good _ (exhausted_not_good input), e2]
      · rw [e2]
        intro l hl
        rw [List.mem_singleton] at hl
        rw [hl]; exact hseg
    · have hgl := getline_plain input seg rest hg (by rw [hr, e1]) hseg
      have hlen : content.length = seg.length + 2 + rest.length := by
        rw [e1]; simp [LINE_SEPARATOR]; omega
      obtain ⟨ih1, ih2⟩ := ih rest (k + 1) { input with rest := rest } (by omega)
        (by simpa [ifstream.good] using hg) rfl e2 e3 (by omega)
      refine ⟨?_, ?_⟩
      · rw [e4, ← ih1]
        simp only [getlines, hgl]
      · rw [e4]
        intro l hl
        rcases List.mem_cons.mp hl with rfl | hl
        · exact hseg
        · exact ih2 l hl

/-- Joining the pieces of the specification with CR LF gives the content
back. -/
theorem intercalate_splitAtCRLF (content : List Char) :
    List.intercalate LINE_SEPARATOR (splitAtCRLF content) = content := by
  induction content using splitAtCRLF.induct with
  | case1 => simp [splitAtCRLF, List.intercalate]
  | case2 c => simp [splitAtCRLF, List.intercalate]
  | case3 c d rest h ih =>
    obtain ⟨rfl, rfl⟩ := h
    obtain ⟨p, ps, hp⟩ := List.exists_cons_of_ne_nil (splitAtCRLF_ne_nil rest)
    rw [hp] at ih
    simp only [splitAtCRLF, and_self, if_true, hp]
    simp only [List.intercalate, List.intersperse, List.flatten_cons, List.nil_append] at ih ⊢
    rw [ih]
    rfl
  | case4 c d rest h hs ih => exact absurd hs (splitAtCRLF_ne_nil _)
  | case5 c d rest h piece pieces hs ih =>
    rw [hs] at ih
    simp only [splitAtCRLF, h, if_false, hs]
    cases pieces with
    | nil =>
      simp only [List.intercalate, List.intersperse, List.flatten_cons, List.flatten_nil,
        List.append_nil] at ih ⊢
      rw [ih]
    | cons q qs =>
      simp only [List.intercalate, List.intersperse, List.flatten_cons, List.cons_append] at ih ⊢
      rw [ih]

/-- A content that ends with CR LF has the empty piece as its last piece. -/
theorem splitAtCRLF_append_crlf (pre : List Char) :
    ∃ init, init ≠ [] ∧ splitAtCRLF (pre ++ LINE_SEPARATOR) = init ++ [[]] := by
  induction pre using splitAtCRLF.induct with
  | case1 => exact ⟨[[]], by simp, by simp [splitAtCRLF, LINE_SEPARATOR]⟩
  | case2 c =>
    refine ⟨[[c]], by simp, ?_⟩
    have : ¬ (c = '\r' ∧ '\r' = '\n') := by
      intro h; exact absurd h.2 (by decide)
    simp [splitAtCRLF, LINE_SEPARATOR, this]
  | case3 c d rest h ih =>
    obtain ⟨init, h1, h2⟩ := ih
    refine ⟨[] :: init, by simp, ?_⟩
    simp only [List.cons_append, splitAtCRLF, h, and_self, if_true]
    exact congrArg (List.cons []) h2
  | case4 c d rest h hs ih => exact absurd hs (splitAtCRLF_ne_nil _)
  | case5 c d rest h piece pieces hs ih =>
    obtain ⟨init, h1, h2⟩ := ih
    obtain ⟨p, ps, rfl⟩ := List.exists_cons_of_ne_nil h1
    refine ⟨(c :: p) :: ps, by simp, ?_⟩
    simp only [List.cons_append] at h2 ⊢
    simp only [splitAtCRLF, h, if_false]
    rw [h2]

/-- C20: for a content in which every CR byte is immediately followed by an
LF byte and which holds no byte 0xFF, the lines that the calls of `getline`
yield are exactly the pieces of the content between consecutive CR LF
sequences: they equal the cut of the specification, joined with CR LF they
give the content back, and none holds a CR (an LF without a CR before it
stays in its line).  A content that ends with CR LF yields one final empty
line.  The loop ends after the last piece: any fuel from the length of the
content plus two on gives the same lines. -/
theorem getlines_spec (content : List Char) (hcr : everyCRBeforeLF content = true)
    (hff : ∀ c ∈ content, c ≠ '\xff') :
    linesOf content = splitAtCRLF content ∧
      (∀ fuel, content.length + 2 ≤ fuel →
        getlines fuel (streamOf content) = linesOf content) ∧
      List.intercalate LINE_SEPARATOR (linesOf content) = content ∧
      (∀ l ∈ linesOf content, ∀ c ∈ l, c ≠ '\r') ∧
      (∀ pre, content = pre ++ LINE_SEPARATOR →
        ∃ init, init ≠ [] ∧ linesOf content = init ++ [[]]) := by
  have hmain : ∀ fuel, content.length + 2 ≤ fuel →
      getlines fuel (streamOf content) = splitAtCRLF content := by
    intro fuel hf
    exact (getlines_eq_splitAtCRLF content.length content fuel (streamOf content)
      (le_refl _) rfl rfl hcr hff hf).1
  have hplain := (getlines_eq_splitAtCRLF content.length content (content.length + 2)
      (streamOf content) (le_refl _) rfl rfl hcr hff (le_refl _)).2
  have hl : linesOf content = splitAtCRLF content := hmain _ (le_refl _)
  refine ⟨hl, ?_, ?_, ?_, ?_⟩
  · intro fuel hf
    rw [hl]; exact hmain fuel hf
  · rw [hl]; exact intercalate_splitAtCRLF content
  · intro l hlm c hc
    rw [hl] at hlm
    exact (plainByte_spec (hplain l hlm c hc)).2
  · intro pre hpre
    rw [hl, hpre]
    exact splitAtCRLF_append_crlf pre

/-- C20 on a content with a lone LF inside its second line and CR LF at its
end. -/
theorem getlines_spec_witness :
    (everyCRBeforeLF "a\r\nb\nc\r\n".toList = true ∧
      ∀ c ∈ "a\r\nb\nc\r\n".toList, c ≠ '\xff') ∧
    linesOf "a\r\nb\nc\r\n".toList = ["a".toList, "b\nc".toList, []] :=
  ⟨⟨by decide, by decide⟩,
   (getlines_spec "a\r\nb\nc\r\n".toList (by decide) (by decide)).1.trans (by decide)⟩

/-! ## Check mode: the counters as a function of the manifests -/

theorem checkEntry_summary (flags : Flags) (fs : FileSystem) (st : CheckState)
    (entry : List Char × Nat) :
    (checkEntry flags fs st entry).summary =
      entrySummary flags.ignore_missing fs st.summary entry := by
  unfold checkEntry entrySummary
  split
  · split_ifs <;> rfl
  · split_ifs <;> simp_all
  · split_ifs <;> rfl

theorem foldl_checkEntry_summary (flags : Flags) (fs : FileSystem)
    (entries : List (List Char × Nat)) :
    ∀ st : CheckState, (entries.foldl (checkEntry flags fs) st).summary =
      entries.foldl (entrySummary flags.ignore_missing fs) st.summary := by
  induction entries with
  | nil => intro st; rfl
  | cons e es ih =>
    intro st
    rw [List.foldl_cons, ih, checkEntry_summary, List.foldl_cons]

theorem checkManifest_summary (flags : Flags) (fs : FileSystem) (st : CheckState)
    (arg : List Char) :
    (checkManifest flags fs st arg).summary =
      manifestSummary flags.ignore_missing fs st.summary arg := by
  unfold checkManifest manifestSummary
  cases hnew : SFVFile.new fs arg with
  | ok sfv =>
    simp only
    rw [foldl_checkEntry_summary]
    split_ifs <;> rfl
  | error e => cases e <;> rfl

theorem foldl_checkManifest_summary (flags : Flags) (fs : FileSystem)
    (args : List (List Char)) :
    ∀ st : CheckState, (args.foldl (checkManifest flags fs) st).summary =
      args.foldl (manifestSummary flags.ignore_missing fs) st.summary := by
  induction args with
  | nil => intro st; rfl
  | cons a as ih =>
    intro st
    rw [List.foldl_cons, ih, checkManifest_summary, List.foldl_cons]

/-- The final counters of a check-mode run depend on the flags through
ignore_missing only. -/
theorem mainCheck_summary (flags : Flags) (fs : FileSystem) (args : List (List Char)) :
    (mainCheck flags fs args).2.summary =
      args.foldl (manifestSummary flags.ignore_missing fs) {} := by
  unfold mainCheck
  simp only
  split_ifs
  · simp only [foldl_checkManifest_summary]
  · simp only [foldl_checkManifest_summary]

theorem mainCheck_exit (flags : Flags) (fs : FileSystem) (args : List (List Char)) :
    (mainCheck flags fs args).1 = checkExitCode flags (mainCheck flags fs args).2.summary := by
  unfold mainCheck
  simp only

/-- C19: two check-mode runs on the same manifests and files whose flags agree
on ignore_missing, status and strict, and differ at most in quiet and warn,
end with the same counters and the same exit code. -/
theorem output_flags_irrelevant (flags1 flags2 : Flags) (fs : FileSystem)
    (args : List (List Char)) (him : flags1.ignore_missing = flags2.ignore_missing)
    (hst : flags1.status = flags2.status) (hsr : flags1.strict = flags2.strict) :
    (mainCheck flags1 fs args).2.summary = (mainCheck flags2 fs args).2.summary ∧
      (mainCheck flags1 fs args).1 = (mainCheck flags2 fs args).1 := by
  have hs : (mainCheck flags1 fs args).2.summary = (mainCheck flags2 fs args).2.summary := by
    rw [mainCheck_summary, mainCheck_summary, him]
  refine ⟨hs, ?_⟩
  rw [mainCheck_exit, mainCheck_exit, hs]
  unfold checkExitCode
  simp only [him, hst, hsr]

set_option maxRecDepth 1000000 in
/-- C19 on the sample file system: with and without quiet and warn the run on
`m.sfv` counts one format error, one read error and one mismatch and exits
with 0. -/
theorem output_flags_irrelevant_witness :
    (mainCheck plainFlags sampleFs ["m.sfv".toList]).2.summary =
      (mainCheck { plainFlags with quiet := true, warn := true } sampleFs
        ["m.sfv".toList]).2.summary ∧
    (mainCheck { plainFlags with quiet := true, warn := true } sampleFs
        ["m.sfv".toList]).2.summary =
      { format_errors := 1, read_errors := 1, check_errors := 1 } ∧
    (mainCheck plainFlags sampleFs ["m.sfv".toList]).1 =
      (mainCheck { plainFlags with quiet := true, warn := true } sampleFs ["m.sfv".toList]).1 :=
  ⟨(output_flags_irrelevant plainFlags { plainFlags with quiet := true, warn := true } sampleFs
      ["m.sfv".toList] rfl rfl rfl).1,
   by decide,
   (output_flags_irrelevant plainFlags { plainFlags with quiet := true, warn := true } sampleFs
      ["m.sfv".toList] rfl rfl rfl).2⟩

/-- C14: when `computeCRC32` succeeds for an entry and the checksum equals
the expected one, no counter changes and standard output receives the line
`<name>: OK` exactly when neither quiet nor status is set; when it differs,
`check_errors` goes up by one, as a 32-bit counter, the other counters stay,
and standard output receives the line `<name>: FAILED` exactly when status is
not set, whatever quiet is.  The error stream never changes.  Hence a run on
one manifest whose only entry is this mismatching entry ends with
`check_errors = 1`, and with status set its exit code is 1. -/
theorem checkEntry_success (flags : Flags) (fs : FileSystem) (st : CheckState)
    (entry : List Char × Nat) (crc : Nat) (hok : computeCRC32 fs entry.1 = .ok crc) :
    checkEntry flags fs st entry =
        (if crc = entry.2 then
          { summary := st.summary,
            out :=
              { cout :=
                  if flags.quiet = false ∧ flags.status = false then
                    st.out.cout ++ entry.1 ++ ": OK".toList ++ endl
                  else st.out.cout,
                cerr := st.out.cerr } }
         else
          { summary :=
              { format_errors := st.summary.format_errors,
                read_errors := st.summary.read_errors,
                check_errors := u32 (st.summary.check_errors + 1) },
            out :=
              { cout :=
                  if flags.status = false then
                    st.out.cout ++ entry.1 ++ ": FAILED".toList ++ endl
                  else st.out.cout,
                cerr := st.out.cerr } }) ∧
      (st.summary.check_errors < 4294967295 →
        u32 (st.summary.check_errors + 1) = st.summary.check_errors + 1) ∧
      (∀ (m : List Char) (ignored : List Nat),
        SFVFile.new fs m = .ok { ignored_lines_ := ignored, data_ := [entry] } →
        crc ≠ entry.2 →
        (mainCheck flags fs [m]).2.summary.check_errors = 1 ∧
          (mainCheck flags fs [m]).2.summary.read_errors = 0 ∧
          (flags.status = true → (mainCheck flags fs [m]).1 = 1)) := by
  refine ⟨?_, fun h => Nat.mod_eq_of_lt (by omega), ?_⟩
  · unfold checkEntry
    rw [hok]
    by_cases hc : crc = entry.2
    · cases hq : flags.quiet <;> cases hs : flags.status <;> simp [hc]
    · cases hq : flags.quiet <;> cases hs : flags.status <;> simp [hc]
  · intro m ignored hnew hne
    have hsum : (mainCheck flags fs [m]).2.summary =
        { format_errors := u32 (0 + ignored.length), read_errors := 0,
          check_errors := 1 } := by
      rw [mainCheck_summary]
      simp only [List.foldl_cons, List.foldl_nil, manifestSummary, hnew, SFVFile.getData,
        SFVFile.getIgnoredLines, entrySummary, hok, hne, if_false]
      rfl
    refine ⟨by rw [hsum], by rw [hsum], ?_⟩
    intro hst
    rw [mainCheck_exit, hsum]
    simp [checkExitCode, hst]

set_option maxRecDepth 1000000 in
/-- C14 on the sample file system: the entry for `x` matches and prints
`x: OK`, the entry for `y` does not match, counts one check error and prints
`y: FAILED`. -/
theorem checkEntry_success_witness :
    (computeCRC32 sampleFs "x".toList = .ok 3421780262 ∧
      computeCRC32 sampleFs "y".toList = .ok 3421780262) ∧
    checkEntry plainFlags sampleFs
        { summary := {}, out := { cout := [], cerr := [] } } ("x".toList, 3421780262) =
      { summary := {}, out := { cout := "x: OK\n".toList, cerr := [] } } ∧
    checkEntry { plainFlags with quiet := true } sampleFs
        { summary := {}, out := { cout := [], cerr := [] } } ("y".toList, 0) =
      { summary := { format_errors := 0, read_errors := 0, check_errors := 1 },
        out := { cout := "y: FAILED\n".toList, cerr := [] } } :=
  ⟨⟨by decide, by decide⟩,
   (checkEntry_success plainFlags sampleFs { summary := {}, out := { cout := [], cerr := [] } }
      ("x".toList, 3421780262) 3421780262 (by decide)).1.trans (by decide),
   (checkEntry_success { plainFlags with quiet := true } sampleFs
      { summary := {}, out := { cout := [], cerr := [] } }
      ("y".toList, 0) 3421780262 (by decide)).1.trans (by decide)⟩

/-! ## Check mode: additivity of the counters -/

theorem entrySummary_plus (im : Bool) (fs : FileSystem) (s t : check_summary)
    (entry : List Char × Nat) :
    entrySummary im fs (summaryPlus s t) entry = summaryPlus s (entrySummary im fs t entry) := by
  have key : ∀ a b : Nat, u32 (u32 (a + b) + 1) = u32 (a + u32 (b + 1)) := by
    intro a b; unfold u32; omega
  unfold entrySummary
  split
  · split_ifs
    · rfl
    · simp [summaryPlus, key]
  · split_ifs
    · rfl
    · simp [summaryPlus, key]
  · simp [summaryPlus, key]

theorem foldl_entrySummary_plus (im : Bool) (fs : FileSystem)
    (entries : List (List Char × Nat)) :
    ∀ s t : check_summary, entries.foldl (entrySummary im fs) (summaryPlus s t) =
      summaryPlus s (entries.foldl (entrySummary im fs) t) := by
  induction entries with
  | nil => intro s t; rfl
  | cons e es ih =>
    intro s t
    rw [List.foldl_cons, entrySummary_plus, ih, List.foldl_cons]

theorem manifestSummary_plus (im : Bool) (fs : FileSystem) (s t : check_summary)
    (arg : List Char) :
    manifestSummary im fs (summaryPlus s t) arg =
      summaryPlus s (manifestSummary im fs t arg) := by
  unfold manifestSummary
  cases SFVFile.new fs arg with
  | error e => rfl
  | ok sfv =>
    simp only
    have key : ∀ a b n : Nat, u32 (u32 (a + b) + n) = u32 (a + u32 (b + n)) := by
      intro a b n; unfold u32; omega
    have : ({ summaryPlus s t with
        format_errors := u32 ((summaryPlus s t).format_errors + sfv.getIgnoredLines.length) } :
          check_summary) =
        summaryPlus s { t with
          format_errors := u32 (t.format_errors + sfv.getIgnoredLines.length) } := by
      simp [summaryPlus, key]
    rw [this, foldl_entrySummary_plus]

theorem summaryPlus_zero (s : check_summary) (h : summaryBounded s) : summaryPlus s {} = s := by
  obtain ⟨h1, h2, h3⟩ := h
  cases s
  simp only [summaryPlus, u32, Nat.add_zero, check_summary.mk.injEq] at *
  exact ⟨Nat.mod_eq_of_lt h1, Nat.mod_eq_of_lt h2, Nat.mod_eq_of_lt h3⟩

theorem summaryPlus_bounded (a b : check_summary) : summaryBounded (summaryPlus a b) := by
  unfold summaryBounded summaryPlus u32
  refine ⟨?_, ?_, ?_⟩ <;> exact Nat.mod_lt _ (by norm_num)

theorem manifestSummary_eq_plus (im : Bool) (fs : FileSystem) (s : check_summary)
    (h : summaryBounded s) (arg : List Char) :
    manifestSummary im fs s arg = summaryPlus s (manifestSummary im fs {} arg) := by
  rw [← manifestSummary_plus, summaryPlus_zero s h]

theorem foldl_manifestSummary_eq (im : Bool) (fs : FileSystem) (args : List (List Char)) :
    ∀ s : check_summary, summaryBounded s →
      args.foldl (manifestSummary im fs) s =
        args.foldl (fun acc m => summaryPlus acc (manifestSummary im fs {} m)) s := by
  induction args with
  | nil => intro s _; rfl
  | cons a as ih =>
    intro s hs
    rw [List.foldl_cons, List.foldl_cons, manifestSummary_eq_plus im fs s hs,
      ih _ (summaryPlus_bounded _ _)]

theorem foldl_summaryPlus_fields (f : List Char → check_summary) (args : List (List Char)) :
    ∀ s : check_summary, summaryBounded s →
      args.foldl (fun acc m => summaryPlus acc (f m)) s =
        { format_errors := u32 (s.format_errors + (args.map (fun m => (f m).format_errors)).sum),
          read_errors := u32 (s.read_errors + (args.map (fun m => (f m).read_errors)).sum),
          check_errors := u32 (s.check_errors + (args.map (fun m => (f m).check_errors)).sum) } := by
  induction args with
  | nil =>
    intro s hs
    obtain ⟨h1, h2, h3⟩ := hs
    cases s
    simp only [List.foldl_nil, List.map_nil, List.sum_nil, Nat.add_zero, u32,
      check_summary.mk.injEq] at *
    exact ⟨(Nat.mod_eq_of_lt h1).symm, (Nat.mod_eq_of_lt h2).symm, (Nat.mod_eq_of_lt h3).symm⟩
  | cons a as ih =>
    intro s hs
    rw [List.foldl_cons, ih _ (summaryPlus_bounded _ _)]
    have key : ∀ x y z : Nat, u32 (u32 (x + y) + z) = u32 (x + (y + z)) := by
      intro x y z; unfold u32; omega
    simp only [summaryPlus, List.map_cons, List.sum_cons, key]

theorem entrySummary_format_errors (im : Bool) (fs : FileSystem) (s : check_summary)
    (entry : List Char × Nat) :
    (entrySummary im fs s entry).format_errors = s.format_errors := by
  unfold entrySummary
  split
  · split_ifs <;> rfl
  · split_ifs <;> rfl
  · rfl

theorem foldl_entrySummary_format_errors (im : Bool) (fs : FileSystem)
    (entries : List (List Char × Nat)) :
    ∀ s : check_summary,
      (entries.foldl (entrySummary im fs) s).format_errors = s.format_errors := by
  induction entries with
  | nil => intro s; rfl
  | cons e es ih => intro s; rw [List.foldl_cons, ih, entrySummary_format_errors]

theorem mainCheck_single (flags : Flags) (fs : FileSystem) (m : List Char) :
    (mainCheck flags fs [m]).2.summary = manifestSummary flags.ignore_missing fs {} m := by
  rw [mainCheck_summary]
  rfl

theorem mainCheck_summary_sum (flags : Flags) (fs : FileSystem) (args : List (List Char)) :
    (mainCheck flags fs args).2.summary =
      { format_errors :=
          u32 ((args.map (fun m => (mainCheck flags fs [m]).2.summary.format_errors)).sum),
        read_errors :=
          u32 ((args.map (fun m => (mainCheck flags fs [m]).2.summary.read_errors)).sum),
        check_errors :=
          u32 ((args.map (fun m => (mainCheck flags fs [m]).2.summary.check_errors)).sum) } := by
  have hb : summaryBounded {} := by
    unfold summaryBounded
    exact ⟨by decide, by decide, by decide⟩
  rw [mainCheck_summary, foldl_manifestSummary_eq _ _ _ _ hb,
    foldl_summaryPlus_fields _ _ _ hb]
  simp only [mainCheck_single, Nat.zero_add]

/-- C13: the final counters of a check-mode run are the field-wise sums, in
32-bit arithmetic, of the counters that each manifest argument gives when it
is checked alone against the same files; whenever the three sums are below
`2^32` they are the sums themselves.  The format errors of a manifest checked
alone are the number of its ignored lines.  A manifest whose constructor
throws contributes zero to all three counters, leaves the counters
accumulated so far as they are, and the run over the other manifests, before
and after it, gives the counters it gives without it. -/
theorem counters_additive (flags : Flags) (fs : FileSystem) (args : List (List Char)) :
    (mainCheck flags fs args).2.summary =
        { format_errors :=
            u32 ((args.map (fun m => (mainCheck flags fs [m]).2.summary.format_errors)).sum),
          read_errors :=
            u32 ((args.map (fun m => (mainCheck flags fs [m]).2.summary.read_errors)).sum),
          check_errors :=
            u32 ((args.map (fun m => (mainCheck flags fs [m]).2.summary.check_errors)).sum) } ∧
      ((args.map (fun m => (mainCheck flags fs [m]).2.summary.format_errors)).sum < 4294967296 →
        (args.map (fun m => (mainCheck flags fs [m]).2.summary.read_errors)).sum < 4294967296 →
        (args.map (fun m => (mainCheck flags fs [m]).2.summary.check_errors)).sum < 4294967296 →
        (mainCheck flags fs args).2.summary =
          { format_errors :=
              (args.map (fun m => (mainCheck flags fs [m]).2.summary.format_errors)).sum,
            read_errors :=
              (args.map (fun m => (mainCheck flags fs [m]).2.summary.read_errors)).sum,
            check_errors :=
              (args.map (fun m => (mainCheck flags fs [m]).2.summary.check_errors)).sum }) ∧
      (∀ (m : List Char) (sfv : SFVFile), SFVFile.new fs m = .ok sfv →
        (mainCheck flags fs [m]).2.summary.format_errors = u32 sfv.getIgnoredLines.length) ∧
      (∀ (m : List Char) (e : Exception), SFVFile.new fs m = .error e →
        (mainCheck flags fs [m]).2.summary =
            { format_errors := 0, read_errors := 0, check_errors := 0 } ∧
          ∀ st : CheckState, (checkManifest flags fs st m).summary = st.summary) ∧
      (∀ (pre post : List (List Char)) (m : List Char) (e : Exception),
        SFVFile.new fs m = .error e →
        (mainCheck flags fs (pre ++ m :: post)).2.summary =
          (mainCheck flags fs (pre ++ post)).2.summary) := by
  have hzero : ∀ (m : List Char) (e : Exception), SFVFile.new fs m = .error e →
      (mainCheck flags fs [m]).2.summary =
        { format_errors := 0, read_errors := 0, check_errors := 0 } := by
    intro m e he
    rw [mainCheck_single]
    unfold manifestSummary
    rw [he]
  refine ⟨mainCheck_summary_sum flags fs args, ?_, ?_, ?_, ?_⟩
  · intro h1 h2 h3
    rw [mainCheck_summary_sum]
    simp only [u32, Nat.mod_eq_of_lt h1, Nat.mod_eq_of_lt h2, Nat.mod_eq_of_lt h3]
  · intro m sfv hnew
    rw [mainCheck_single]
    unfold manifestSummary
    rw [hnew]
    simp only
    rw [foldl_entrySummary_format_errors]
    simp
  · intro m e he
    refine ⟨hzero m e he, ?_⟩
    intro st
    rw [checkManifest_summary]
    unfold manifestSummary
    rw [he]
  · intro pre post m e he
    rw [mainCheck_summary_sum, mainCheck_summary_sum]
    simp only [List.map_append, List.map_cons, List.sum_append, List.sum_cons, hzero m e he,
      Nat.zero_add]

/-! ## The summary of check mode -/

theorem count_newline_to_string (n : Nat) : (to_string n).count '\n' = 0 := by
  rw [List.count_eq_zero]
  intro h
  have := toDigitsCore_digits (n + 1) n [] (by simp) '\n' h
  revert this
  decide

theorem to_string_eq_repr (n : Nat) : to_string n = (Nat.repr n).toList := rfl

/-- C17: the text that `operator<<` writes for a `check_summary` is made of
the line for the format errors, the line for the read errors and the line for
the check errors, in this order, where a counter of 0 gives no line, a counter
of 1 the singular wording, and a counter `n > 1` the plural wording with the
decimal digits of `n`; so the text has as many lines as there are non-zero
counters, at most three.  Check mode writes this text to the error stream
after the loop over the manifests when status is not set. -/
theorem check_summary_text_spec (s : check_summary) :
    s.text =
        (if s.format_errors = 0 then []
         else if s.format_errors = 1 then "WARNING: 1 line is improperly formatted\n".toList
         else "WARNING: ".toList ++ to_string s.format_errors ++
           " lines are improperly formatted\n".toList) ++
        (if s.read_errors = 0 then []
         else if s.read_errors = 1 then "WARNING: 1 listed file could not be read\n".toList
         else "WARNING: ".toList ++ to_string s.read_errors ++
           " listed files could not be read\n".toList) ++
        (if s.check_errors = 0 then []
         else if s.check_errors = 1 then "WARNING: 1 computed checksum did NOT match\n".toList
         else "WARNING: ".toList ++ to_string s.check_errors ++
           " computed checksums did NOT match\n".toList) ∧
      s.text.count '\n' =
        (if s.format_errors = 0 then 0 else 1) + (if s.read_errors = 0 then 0 else 1) +
          (if s.check_errors = 0 then 0 else 1) ∧
      (∀ n : Nat, to_string n = (Nat.repr n).toList) ∧
      (∀ (flags : Flags) (fs : FileSystem) (args : List (List Char)),
        (mainCheck flags fs args).2.out.cerr =
          (args.foldl (checkManifest flags fs)
            { summary := {}, out := { cout := [], cerr := [] } }).out.cerr ++
          (if flags.status = true then [] else (mainCheck flags fs args).2.summary.text)) := by
  have htext : s.text =
        (if s.format_errors = 0 then []
         else if s.format_errors = 1 then "WARNING: 1 line is improperly formatted\n".toList
         else "WARNING: ".toList ++ to_string s.format_errors ++
           " lines are improperly formatted\n".toList) ++
        (if s.read_errors = 0 then []
         else if s.read_errors = 1 then "WARNING: 1 listed file could not be read\n".toList
         else "WARNING: ".toList ++ to_string s.read_errors ++
           " listed files could not be read\n".toList) ++
        (if s.check_errors = 0 then []
         else if s.check_errors = 1 then "WARNING: 1 computed checksum did NOT match\n".toList
         else "WARNING: ".toList ++ to_string s.check_errors ++
           " computed checksums did NOT match\n".toList) := by
    have line : ∀ (n : Nat) (sing plur : List Char),
        (if n > 1 then "WARNING: ".toList ++ to_string n ++ plur ++ endl
         else if n = 1 then sing ++ endl else []) =
        (if n = 0 then [] else if n = 1 then sing ++ endl
         else "WARNING: ".toList ++ to_string n ++ plur ++ endl) := by
      intro n sing plur
      rcases Nat.lt_or_ge n 1 with h | h
      · have : n = 0 := by omega
        subst this; simp
      · rcases Nat.eq_or_lt_of_le h with h1 | h1
        · rw [← h1]; simp
        · have h2 : n ≠ 0 := by omega
          have h3 : n ≠ 1 := by omega
          simp [h1, h2, h3]
    unfold check_summary.text
    rw [line, line, line]
    simp [endl]
  refine ⟨htext, ?_, to_string_eq_repr, ?_⟩
  · rw [htext]
    simp only [List.count_append]
    have c1 : "WARNING: 1 line is improperly formatted\n".toList.count '\n' = 1 := by decide
    have c2 : "WARNING: 1 listed file could not be read\n".toList.count '\n' = 1 := by decide
    have c3 : "WARNING: 1 computed checksum did NOT match\n".toList.count '\n' = 1 := by decide
    have c4 : "WARNING: ".toList.count '\n' = 0 := by decide
    have c5 : " lines are improperly formatted\n".toList.count '\n' = 1 := by decide
    have c6 : " listed files could not be read\n".toList.count '\n' = 1 := by decide
    have c7 : " computed checksums did NOT match\n".toList.count '\n' = 1 := by decide
    split_ifs <;>
      simp only [List.count_append, List.count_nil, c1, c2, c3, c4, c5, c6, c7,
        count_newline_to_string]
  · intro flags fs args
    unfold mainCheck
    cases hs : flags.status <;> simp

/-! ## The layout of the rendered manifest -/

theorem maxSizeWidth_foldl (data : List SFVData) :
    ∀ acc : Nat,
      acc ≤ data.foldl (fun n_max_size sfv_entry =>
        if n_max_size < sfv_entry.getFormattedSize.length then sfv_entry.getFormattedSize.length
        else n_max_size) acc ∧
      (∀ d ∈ data, d.getFormattedSize.length ≤ data.foldl (fun n_max_size sfv_entry =>
        if n_max_size < sfv_entry.getFormattedSize.length then sfv_entry.getFormattedSize.length
        else n_max_size) acc) ∧
      (data.foldl (fun n_max_size sfv_entry =>
        if n_max_size < sfv_entry.getFormattedSize.length then sfv_entry.getFormattedSize.length
        else n_max_size) acc = acc ∨
       ∃ d ∈ data, data.foldl (fun n_max_size sfv_entry =>
        if n_max_size < sfv_entry.getFormattedSize.length then sfv_entry.getFormattedSize.length
        else n_max_size) acc = d.getFormattedSize.length) := by
  induction data with
  | nil => intro acc; simp
  | cons x xs ih =>
    intro acc
    simp only [List.foldl_cons]
    by_cases h : acc < x.getFormattedSize.length
    · simp only [h, if_true]
      obtain ⟨h1, h2, h3⟩ := ih x.getFormattedSize.length
      refine ⟨by omega, ?_, ?_⟩
      · intro d hd
        rcases List.mem_cons.mp hd with rfl | hd
        · exact h1
        · exact h2 d hd
      · right
        rcases h3 with h3 | ⟨d, hd, h3⟩
        · exact ⟨x, List.mem_cons_self _ _, h3⟩
        · exact ⟨d, List.mem_cons_of_mem _ hd, h3⟩
    · simp only [h, if_false]
      obtain ⟨h1, h2, h3⟩ := ih acc
      refine ⟨h1, ?_, ?_⟩
      · intro d hd
        rcases List.mem_cons.mp hd with rfl | hd
        · omega
        · exact h2 d hd
      · rcases h3 with h3 | ⟨d, hd, h3⟩
        · exact Or.inl h3
        · exact Or.inr ⟨d, List.mem_cons_of_mem _ hd, h3⟩

theorem maxSizeWidth_spec (data : List SFVData) :
    (∀ d ∈ data, d.getFormattedSize.length ≤ maxSizeWidth data) ∧
      (data ≠ [] → ∃ d ∈ data, maxSizeWidth data = d.getFormattedSize.length) := by
  obtain ⟨_, h2, h3⟩ := maxSizeWidth_foldl data 0
  refine ⟨h2, ?_⟩
  intro hne
  rcases h3 with h3 | h3
  · obtain ⟨x, xs, rfl⟩ := List.exists_cons_of_ne_nil hne
    refine ⟨x, List.mem_cons_self _ _, ?_⟩
    have := h2 x (List.mem_cons_self _ _)
    unfold maxSizeWidth at *
    omega
  · exact h3

theorem mainGenerate_cout (tt : TimeText) (fs : FileSystem) (args : List (List Char))
    (hne : (collectAll fs args).data ≠ []) :
    (mainGenerate tt fs args).2.cout = render tt (sort (collectAll fs args).data) := by
  unfold mainGenerate
  have : (collectAll fs args).data.isEmpty = false := by
    cases h : (collectAll fs args).data with
    | nil => exact absurd h hne
    | cons x xs => rfl
  simp [this]

/-- C15: what generate mode writes for `n` records with 32-bit checksums is
`2n + 3` pieces, each followed by CR LF: the header comment with the time
stamp, a bare `;`, the `n` table lines, a bare `;`, and the `n` checksum
lines `<name> <8 upper-case hexadecimal digits>`; the first `n + 3` begin
with `;`.  A table line is `; `, the decimal size behind as many spaces as it
is shorter than the widest decimal size `W` of the batch, a space, the time
stamp, a space and the name; the size never is longer than `W`, so every size
field is `W` characters wide. -/
theorem render_layout (tt : TimeText) (data : List SFVData)
    (hcrc : ∀ d ∈ data, d.crc32_ < 4294967296) :
    render tt data = ((renderLines tt data).map (fun l => l ++ LINE_SEPARATOR)).flatten ∧
      (renderLines tt data).length = 2 * data.length + 3 ∧
      renderLines tt data =
        [[';', ' '] ++ HEADER ++ [' '] ++ tt.getTimestamp, [';']] ++
          data.map (fun d =>
            [';', ' '] ++ List.replicate (maxSizeWidth data - (to_string d.size_).length) ' ' ++
              to_string d.size_ ++ [' '] ++ d.getFormattedTimestamp tt ++ [' '] ++ d.name_) ++
          [[';']] ++
          data.map (fun d => d.name_ ++ [' '] ++ d.getFormattedChecksum) ∧
      (∀ l ∈ (renderLines tt data).take (data.length + 3), l.head? = some ';') ∧
      (∀ d ∈ data, (to_string d.size_).length ≤ maxSizeWidth data ∧
        (List.replicate (maxSizeWidth data - (to_string d.size_).length) ' ' ++
          to_string d.size_).length = maxSizeWidth data ∧
        to_string d.size_ = (Nat.repr d.size_).toList) ∧
      (data ≠ [] → ∃ d ∈ data, maxSizeWidth data = (to_string d.size_).length) ∧
      (∀ d ∈ data, d.getFormattedChecksum.length = 8 ∧
        ∀ c ∈ d.getFormattedChecksum, c ∈ "0123456789ABCDEF".toList) ∧
      (∀ (fs : FileSystem) (args : List (List Char)), (collectAll fs args).data ≠ [] →
        (mainGenerate tt fs args).2.cout = render tt (sort (collectAll fs args).data)) := by
  have hw := maxSizeWidth_spec data
  refine ⟨render_eq_lines tt data, ?_, ?_, ?_, ?_, ?_, ?_, ?_⟩
  · simp [renderLines]; omega
  · unfold renderLines
    have h1 : tableBody tt (maxSizeWidth data) = fun d =>
        [';', ' '] ++ List.replicate (maxSizeWidth data - (to_string d.size_).length) ' ' ++
          to_string d.size_ ++ [' '] ++ d.getFormattedTimestamp tt ++ [' '] ++ d.name_ := by
      funext d; rfl
    have h2 : dataBody = fun d => d.name_ ++ [' '] ++ d.getFormattedChecksum := by
      funext d; rfl
    rw [h1, h2]
  · intro l hl
    have hsplit : (renderLines tt data).take (data.length + 3) =
        [[';', ' '] ++ HEADER ++ [' '] ++ tt.getTimestamp, [';']] ++
          data.map (tableBody tt (maxSizeWidth data)) ++ [[';']] := by
      unfold renderLines
      apply List.take_left'
      simp
    rw [hsplit] at hl
    simp only [List.mem_append, List.mem_cons, List.mem_map, List.mem_singleton,
      List.not_mem_nil, or_false] at hl
    rcases hl with ((rfl | rfl) | ⟨d, _, rfl⟩) | rfl <;> simp [tableBody]
  · intro d hd
    have := hw.1 d hd
    simp only [SFVData.getFormattedSize] at this
    refine ⟨this, ?_, rfl⟩
    simp only [List.length_append, List.length_replicate]
    omega
  · intro hne
    exact hw.2 hne
  · intro d hd
    have hs := format08X_spec _ (hcrc d hd)
    rw [getFormattedChecksum_eq d (hcrc d hd)]
    exact ⟨hs.1, fun c hc => mem_upperHexDigits (hs.2.1 c hc)⟩
  · intro fs args hne
    exact mainGenerate_cout tt fs args hne

/-- C15 at two records with sizes of one and four digits: the smaller size is
written behind three spaces. -/
theorem render_layout_witness :
    (∀ d ∈ [({ name_ := "a".toList, size_ := 5, last_write_ := 0, crc32_ := 10 } : SFVData),
            { name_ := "b".toList, size_ := 1234, last_write_ := 0, crc32_ := 11 }],
        d.crc32_ < 4294967296) ∧
    renderLines sampleTime
        [{ name_ := "a".toList, size_ := 5, last_write_ := 0, crc32_ := 10 },
         { name_ := "b".toList, size_ := 1234, last_write_ := 0, crc32_ := 11 }] =
      ["; Generated by SFVTool v1.0 (github.com/slek-z/sfvtool) on 2009-06-13 at 20:20:00".toList,
       ";".toList,
       ";    5 20:20.00 2009-06-15 a".toList,
       "; 1234 20:20.00 2009-06-15 b".toList,
       ";".toList,
       "a 0000000A".toList,
       "b 0000000B".toList] :=
  ⟨by decide,
   (render_layout sampleTime
      [{ name_ := "a".toList, size_ := 5, last_write_ := 0, crc32_ := 10 },
       { name_ := "b".toList, size_ := 1234, last_write_ := 0, crc32_ := 11 }]
      (by decide)).2.2.1.trans (by decide)⟩

/-! ## Generate mode: duplicated file names -/

theorem collect_duplicated (fs : FileSystem) (st : GenState) (arg : List Char)
    (earlier : List (List Char)) (h : filesInv fs st earlier) :
    (collect fs st arg).summary.duplicated_files =
        (if is_regular_file fs arg &&
            earlier.any (fun e => is_regular_file fs e && filename e == filename arg)
          then u32 (st.summary.duplicated_files + 1) else st.summary.duplicated_files) ∧
      filesInv fs (collect fs st arg) (earlier ++ [arg]) := by
  unfold collect
  by_cases h1 : is_regular_file fs arg = true
  · simp only [is_regular_file_error_of_regular_file fs arg h1, h1, Bool.not_true,
      Bool.false_eq_true, if_false, Bool.true_and]
    by_cases h2 : filename arg ∈ st.files
    · have h2' := (h (filename arg)).mp h2
      simp only [h2, if_true, h2']
      refine ⟨trivial, ?_⟩
      intro name
      rw [List.any_append]
      constructor
      · intro hn
        rw [(h name).mp hn]; rfl
      · intro hn
        rcases Bool.or_eq_true _ _ |>.mp hn with hn | hn
        · exact (h name).mpr hn
        · simp only [List.any_cons, List.any_nil, Bool.or_false, h1, Bool.true_and,
            beq_iff_eq] at hn
          rw [← hn]; exact h2
    · have h2' : earlier.any (fun e => is_regular_file fs e && filename e == filename arg) =
          false := by
        cases hx : earlier.any (fun e => is_regular_file fs e && filename e == filename arg) with
        | false => rfl
        | true => exact absurd ((h (filename arg)).mpr hx) h2
      simp only [h2, if_false, h2', Bool.false_eq_true]
      have hfiles : ∀ st' : GenState, st'.files = filename arg :: st.files →
          filesInv fs st' (earlier ++ [arg]) := by
        intro st' hst' name
        rw [hst', List.any_append, List.mem_cons]
        simp only [List.any_cons, List.any_nil, Bool.or_false, h1, Bool.true_and,
          Bool.or_eq_true, beq_iff_eq]
        rw [h name]
        constructor
        · rintro (rfl | hn)
          · exact Or.inr rfl
          · exact Or.inl hn
        · rintro (hn | hn)
          · exact Or.inr hn
          · exact Or.inl hn.symm
      cases hrec : SFVData.new fs arg with
      | ok record => exact ⟨rfl, hfiles _ rfl⟩
      | error e => cases e <;> exact ⟨rfl, hfiles _ rfl⟩
  · simp only [Bool.not_eq_true] at h1
    have hkeep : filesInv fs st (earlier ++ [arg]) := by
      intro name
      rw [List.any_append]
      simp only [List.any_cons, List.any_nil, Bool.or_false, h1, Bool.false_and]
      exact h name
    cases herr : is_regular_file_error fs arg with
    | some what =>
      simp only [h1, Bool.false_and, Bool.false_eq_true, if_false]
      exact ⟨trivial, hkeep⟩
    | none =>
      simp only [h1, Bool.not_false, if_true, Bool.false_and, Bool.false_eq_true, if_false]
      exact ⟨trivial, hkeep⟩

theorem foldl_collect_duplicated (fs : FileSystem) (args : List (List Char)) :
    ∀ (st : GenState) (earlier : List (List Char)), filesInv fs st earlier →
      st.summary.duplicated_files < 4294967296 →
      (args.foldl (collect fs) st).summary.duplicated_files =
        u32 (st.summary.duplicated_files + countDuplicates fs earlier args) := by
  induction args with
  | nil =>
    intro st earlier _ hb
    simp only [List.foldl_nil, countDuplicates, Nat.add_zero, u32]
    exact (Nat.mod_eq_of_lt hb).symm
  | cons a as ih =>
    intro st earlier hinv hb
    obtain ⟨h1, h2⟩ := collect_duplicated fs st a earlier hinv
    have hb' : (collect fs st a).summary.duplicated_files < 4294967296 := by
      rw [h1]
      split_ifs
      · exact Nat.mod_lt _ (by norm_num)
      · exact hb
    rw [List.foldl_cons, ih _ _ h2 hb', h1]
    simp only [countDuplicates]
    split_ifs
    · rw [u32_add_u32]
      congr 1
      omega
    · simp

theorem countDuplicates_le (fs : FileSystem) (args : List (List Char)) :
    ∀ earlier : List (List Char), countDuplicates fs earlier args ≤ args.length := by
  induction args with
  | nil => intro earlier; simp [countDuplicates]
  | cons a as ih =>
    intro earlier
    have := ih (earlier ++ [a])
    simp only [countDuplicates, List.length_cons]
    split_ifs <;> omega

theorem SFVData_new_readable (fs : FileSystem) (file : List Char) (node : FileNode)
    (hfile : fs file = some node) (hreg : node.regular = true) (hread : node.readable = true)
    (hdev : node.device_error = false) :
    SFVData.new fs file =
      .ok { name_ := filename file, size_ := node.size, last_write_ := node.last_write,
            crc32_ := crc32 node.content } := by
  have hcrc : computeCRC32 fs file = .ok (crc32 node.content) :=
    (computeCRC32With_readable BUFFER_SIZE (by decide) fs file node hfile hread hdev).1
  unfold SFVData.new
  simp [is_regular_file_error_of_regular fs file node hfile hreg, hfile, hreg, hcrc]

theorem collectAll_same_name (fs : FileSystem) (p q : List Char) (n1 n2 : FileNode)
    (h1 : fs p = some n1) (h2 : fs q = some n2) (hreg1 : n1.regular = true)
    (hread1 : n1.readable = true) (hdev1 : n1.device_error = false)
    (hreg2 : n2.regular = true) (hname : filename p = filename q) :
    (collectAll fs [p, q]).summary.duplicated_files = 1 ∧
      (collectAll fs [p, q]).data =
        [{ name_ := filename p, size_ := n1.size, last_write_ := n1.last_write,
           crc32_ := crc32 n1.content }] := by
  have hnew := SFVData_new_readable fs p n1 h1 hreg1 hread1 hdev1
  have hr1 : is_regular_file fs p = true := by simp [is_regular_file, h1, hreg1]
  have hr2 : is_regular_file fs q = true := by simp [is_regular_file, h2, hreg2]
  have hfirst : collect fs { summary := {}, data := [], files := [], cerr := [] } p =
      { summary := {},
        data := [{ name_ := filename p, size_ := n1.size, last_write_ := n1.last_write,
                   crc32_ := crc32 n1.content }],
        files := [filename p], cerr := [] } := by
    unfold collect
    simp [is_regular_file_error_of_regular fs p n1 h1 hreg1, hr1, hnew]
  unfold collectAll
  simp only [List.foldl_cons, List.foldl_nil, hfirst]
  unfold collect
  simp [is_regular_file_error_of_regular fs q n2 h2 hreg2, hr2, hname, u32]

/-- C11: in generate mode no two collected records have the same name, and
for an argument list that `main` can receive (its length is below the largest
`int`) `duplicated_files` is the number of regular-file inputs whose file name
equals the file name of an earlier regular-file input.  Two regular files
with the same file name in different directories, the first of them
readable, give `duplicated_files = 1`, one record, and a rendered manifest
with the one checksum line of that record. -/
theorem duplicates_counted (fs : FileSystem) (args : List (List Char))
    (hargc : args.length < 2147483647) :
    ((collectAll fs args).data.map SFVData.getName).Nodup ∧
      (collectAll fs args).summary.duplicated_files = countDuplicates fs [] args ∧
      (∀ (tt : TimeText) (p q : List Char) (n1 n2 : FileNode),
        fs p = some n1 → fs q = some n2 → n1.regular = true → n1.readable = true →
        n1.device_error = false → n2.regular = true → filename p = filename q →
        (collectAll fs [p, q]).summary.duplicated_files = 1 ∧
          ∃ r : SFVData, (collectAll fs [p, q]).data = [r] ∧ r.name_ = filename p ∧
            (mainGenerate tt fs [p, q]).2.cout = render tt [r] ∧
            render tt [r] = headerText tt ++ tableLine tt (maxSizeWidth [r]) r ++
              [';'] ++ LINE_SEPARATOR ++ dataLine r) := by
  refine ⟨collectAll_nodup fs args, ?_, ?_⟩
  · have hinv : filesInv fs { summary := {}, data := [], files := [], cerr := [] } [] := by
      intro name; simp
    have h := foldl_collect_duplicated fs args
      { summary := {}, data := [], files := [], cerr := [] } [] hinv (by decide)
    have hle := countDuplicates_le fs args []
    unfold collectAll
    rw [h]
    simp only [Nat.zero_add, u32]
    exact Nat.mod_eq_of_lt (by omega)
  · intro tt p q n1 n2 h1 h2 hreg1 hread1 hdev1 hreg2 hname
    obtain ⟨hd, hdata⟩ := collectAll_same_name fs p q n1 n2 h1 h2 hreg1 hread1 hdev1 hreg2 hname
    refine ⟨hd, _, hdata, rfl, ?_, ?_⟩
    · rw [mainGenerate_cout tt fs [p, q] (by rw [hdata]; simp), hdata]
      rfl
    · simp [render, COMMENT]

set_option maxRecDepth 1000000 in
/-- C11 on the file system with `x` in several directories: the arguments
`a/x`, `b/x` give one duplicate and the one record of `a/x`. -/
theorem duplicates_counted_witness :
    (collectAll dirsFs ["a/x".toList, "b/x".toList]).summary.duplicated_files =
      countDuplicates dirsFs [] ["a/x".toList, "b/x".toList] ∧
    countDuplicates dirsFs [] ["a/x".toList, "b/x".toList] = 1 ∧
    (collectAll dirsFs ["a/x".toList, "b/x".toList]).data =
      [{ name_ := "x".toList, size_ := 9, last_write_ := 0, crc32_ := 3421780262 }] :=
  ⟨(duplicates_counted dirsFs ["a/x".toList, "b/x".toList] (by decide)).2.1,
   by decide, by decide⟩

set_option maxRecDepth 1000000 in
/-- C12 does not hold of the code.  With the arguments `c/x`, `a/x`, where
`c/x` is a regular file that cannot be opened and `a/x` a readable one, the
name `x` enters the set `files` before the record of `c/x` fails to be built;
`a/x` is then skipped with `filename already exists` and counted as a
duplicate although no record was added: nothing is collected and nothing is
written, while `a/x` alone gives a record. -/
theorem duplicate_without_record :
    (collectAll dirsFs ["c/x".toList, "a/x".toList]).data = [] ∧
      (collectAll dirsFs ["c/x".toList, "a/x".toList]).summary.duplicated_files = 1 ∧
      (collectAll dirsFs ["c/x".toList, "a/x".toList]).cerr =
        "c/x: file not found\na/x: filename already exists\n".toList ∧
      (mainGenerate sampleTime dirsFs ["c/x".toList, "a/x".toList]).2.cout = [] ∧
      (collectAll dirsFs ["a/x".toList]).data =
        [{ name_ := "x".toList, size_ := 9, last_write_ := 0, crc32_ := 3421780262 }] := by
  refine ⟨?_, ?_, ?_, ?_, ?_⟩ <;> decide

/-! ## A path whose status cannot be read -/

/-- In generate mode an argument whose status cannot be read is reported as
an unexpected error: the exception of `is_regular_file` reaches the last
handler, and nothing is collected or counted for the argument. -/
theorem collect_of_status_error (fs : FileSystem) (st : GenState) (arg what : List Char)
    (h : is_regular_file_error fs arg = some what) :
    collect fs st arg =
      { st with cerr := st.cerr ++ arg ++ ": unexpected error".toList ++ endl } := by
  unfold collect
  rw [h]

/-- The constructor of `SFVFile` lets the exception of `is_regular_file`
through. -/
theorem new_of_status_error (fs : FileSystem) (file what : List Char)
    (h : is_regular_file_error fs file = some what) :
    SFVFile.new fs file = .error (.filesystem_error what) := by
  unfold SFVFile.new
  rw [h]

/-- In check mode a manifest whose status cannot be read is reported with the
text of the exception, and the counters stay as they are. -/
theorem checkManifest_of_status_error (flags : Flags) (fs : FileSystem) (st : CheckState)
    (arg what : List Char) (h : is_regular_file_error fs arg = some what) :
    checkManifest flags fs st arg =
      { st with out := { st.out with
          cerr := st.out.cerr ++ arg ++ ": ".toList ++ what ++ endl } } := by
  unfold checkManifest
  rw [new_of_status_error fs arg what h]

set_option maxRecDepth 1000000 in
/-- The path `locked/x` of `lockedFs` in both modes. -/
theorem lockedFs_runs :
    collectAll lockedFs ["locked/x".toList] =
        { summary := {}, data := [], files := [],
          cerr := "locked/x: unexpected error\n".toList } ∧
      (mainCheck plainFlags lockedFs ["locked/x".toList]).2.out.cerr =
        "locked/x: boost::filesystem::status: Permission denied\n".toList ∧
      (mainCheck plainFlags lockedFs ["locked/x".toList]).2.summary = {} := by
  refine ⟨?_, ?_, ?_⟩ <;> decide

end sfv
